import Mathlib

/-!
# A shallow embedding of the lexer in `parser.c`

The buffer (`content`, `size`) is a list of bytes, each byte a natural number;
the buffer size is the length of the list.  Pointers into the buffer
(`t->begin`, `t->end`) are byte offsets from `content`.  A string literal of a
classification table is the list of its bytes, implicitly followed by the
terminating NUL byte.  The `size_t` counters are natural numbers; the
operations that can wrap around (`row + 1`, `cur - bol + 1`) are reduced
modulo `2 ^ 64`.
-/

namespace RulesLexer

/-- Number of values of a `size_t` (64-bit target). -/
def SIZE_MODULUS : Nat := 2 ^ 64

/-- The enumeration `Lexer_Kind` (`LEXER_COUNT_KINDS` is its cardinality, 7). -/
inductive Lexer_Kind where
  | LEXER_INVALID
  | LEXER_END
  | LEXER_INT
  | LEXER_STRING
  | LEXER_KEYWORD
  | LEXER_SYMBOL
  | LEXER_PUNCT
  deriving DecidableEq, Repr

/-- The struct `Lexer`; `size` is the length of `content`, `puncts_count` and
`keyboard_counts` are the lengths of the two tables. -/
structure Lexer where
  file_path : String
  content : List Nat
  bol : Nat
  row : Nat
  cur : Nat
  puncts : List (List Nat)
  keyboards : List (List Nat)
  deriving DecidableEq, Repr

/-- The field `size` of the struct: the number of bytes of the buffer. -/
def Lexer.size (l : Lexer) : Nat := l.content.length

/-- The struct `Lexer_Loc`. -/
structure Lexer_Loc where
  file_path : String
  row : Nat
  col : Nat
  deriving DecidableEq, Repr

/-- The struct `Lexer_Token`; `begin` and `end_` are offsets into the buffer. -/
structure Lexer_Token where
  begin : Nat
  end_ : Nat
  loc : Lexer_Loc
  kind : Lexer_Kind
  punct_index : Nat
  kw_index : Nat
  deriving DecidableEq, Repr

/-- The byte `content[i]`. -/
def Lexer.byte (l : Lexer) (i : Nat) : Nat := l.content.getD i 0

/-- The function `lexer_loc`: `col = cur - bol + 1` and `row = row + 1`, in
`size_t` arithmetic. -/
def lexer_loc (l : Lexer) : Lexer_Loc :=
  { col := (((l.cur : Int) - (l.bol : Int) + 1) % (SIZE_MODULUS : Int)).toNat,
    row := (l.row + 1) % SIZE_MODULUS,
    file_path := l.file_path }

/-- The function `lexer_chop_char`: the result is `true` only when the consumed
byte is a newline. -/
def lexer_chop_char (l : Lexer) : Bool × Lexer :=
  if l.cur < l.size then
    let x := l.byte l.cur
    let l1 := { l with cur := l.cur + 1 }
    if x = 10 then
      (true, { l1 with row := (l1.row + 1) % SIZE_MODULUS, bol := l1.cur })
    else
      (false, l1)
  else
    (false, l)

/-- The function `lexer_chop_chars`: `while (n --> 0 && lexer_chop_char(l));`. -/
def lexer_chop_chars (l : Lexer) : Nat → Lexer
  | 0 => l
  | n + 1 =>
    let r := lexer_chop_char l
    if r.1 then lexer_chop_chars r.2 n else r.2

/-- The function `isspace` of the C library in the "C" locale: space, and the
bytes from horizontal tab (9) to carriage return (13): tab, newline, vertical
tab, form feed, carriage return.  No byte above 127 is a whitespace byte. -/
def isspace (b : Nat) : Bool := b == 32 || (9 ≤ b && b ≤ 13)

/-- The loop of `lexer_trim_left_ws`, with a bound on the number of iterations. -/
def lexer_trim_left_ws_loop : Nat → Lexer → Lexer
  | 0, l => l
  | fuel + 1, l =>
    if l.cur < l.size ∧ isspace (l.byte l.cur) = true then
      lexer_trim_left_ws_loop fuel (lexer_chop_char l).2
    else l

/-- The function `lexer_trim_left_ws`; every iteration consumes a byte, so
`size - cur` iterations are enough (`lexer_trim_left_ws_stops`). -/
def lexer_trim_left_ws (l : Lexer) : Lexer :=
  lexer_trim_left_ws_loop (l.size - l.cur) l

/-- The function `strlen` of the C library: the number of bytes before the
first NUL byte. -/
def strlen (s : List Nat) : Nat := (s.takeWhile (fun b => b != 0)).length

/-- The loop of `lexer_starts_with` from index `i`, with a bound on the number
of iterations. -/
def lexer_starts_with_loop (l : Lexer) (pre : List Nat) (len : Nat) : Nat → Nat → Bool
  | 0, _ => true
  | fuel + 1, i =>
    if i + l.cur < l.size ∧ i < len then
      if l.byte (l.cur + i) ≠ pre.getD i 0 then false
      else lexer_starts_with_loop l pre len fuel (i + 1)
    else true

/-- The function `lexer_starts_with`; the loop runs at most `len` times. -/
def lexer_starts_with (l : Lexer) (pre : List Nat) (len : Nat) : Bool :=
  lexer_starts_with_loop l pre len len 0

/-- The loop over the punctuation table in `lexer_get_token`, from index `i`;
`none` when no entry matched. -/
def lexer_get_token_puncts (l : Lexer) (t : Lexer_Token) :
    List (List Nat) → Nat → Option (Lexer_Token × Lexer)
  | [], _ => none
  | p :: ps, i =>
    let n := strlen p
    if lexer_starts_with l p n then
      some ({ t with kind := Lexer_Kind.LEXER_PUNCT, punct_index := i, end_ := t.end_ + n },
            lexer_chop_chars l n)
    else lexer_get_token_puncts l t ps (i + 1)

/-- The function `lexer_get_token`: the boolean result, the token written to
`*t` and the lexer after the call. -/
def lexer_get_token (l : Lexer) : Bool × Lexer_Token × Lexer :=
  let l1 := lexer_trim_left_ws l
  let t : Lexer_Token :=
    { begin := l1.cur, end_ := l1.cur, loc := lexer_loc l1,
      kind := Lexer_Kind.LEXER_INVALID, punct_index := 0, kw_index := 0 }
  if l1.cur ≥ l1.size then
    (false, { t with kind := Lexer_Kind.LEXER_END }, l1)
  else
    match lexer_get_token_puncts l1 t l1.puncts 0 with
    | some (t1, l2) => (true, t1, l2)
    | none => (false, { t with end_ := t.end_ + 1 }, (lexer_chop_char l1).2)

/-- The function `lexer_create`, followed by the assignment of the punctuation
table as in `main` (`l.puncts = puncts`); all other fields are zero. -/
def lexer_create (file_path : String) (items : List Nat) (table : List (List Nat)) : Lexer :=
  { file_path := file_path, content := items, bol := 0, row := 0, cur := 0,
    puncts := table, keyboards := [] }

/-- The table `puncts`: "|", ",", "(", ")", ";". -/
def puncts : List (List Nat) := [[124], [44], [40], [41], [59]]

/-- The lexer after `k` calls of `lexer_get_token`. -/
def lexer_after_calls (l : Lexer) : Nat → Lexer
  | 0 => l
  | k + 1 => (lexer_get_token (lexer_after_calls l k)).2.2

/-- The result of call number `k` (from 0) of `lexer_get_token`. -/
def lexer_nth_call (l : Lexer) (k : Nat) : Bool × Lexer_Token × Lexer :=
  lexer_get_token (lexer_after_calls l k)

/-- The number of newline bytes in `content[0 .. off)`. -/
def newline_count (content : List Nat) (off : Nat) : Nat := (content.take off).count 10

/-- The offset just after the last newline byte before `off`, 0 when there is
none. -/
def line_start (content : List Nat) : Nat → Nat
  | 0 => 0
  | k + 1 => if content.getD k 0 = 10 then k + 1 else line_start content k

/-- The number of newline bytes in `content[a .. j)`. -/
def newlines_between (content : List Nat) (a j : Nat) : Nat :=
  ((content.drop a).take (j - a)).count 10

/-- The number of consecutive newline bytes of the buffer starting at offset
`a`. -/
def newline_run (content : List Nat) (a : Nat) : Nat :=
  ((content.drop a).takeWhile (fun b => b == 10)).length

/-- The lexer `l2` is the lexer `l` after consuming the bytes from `l.cur` to
`l2.cur`, all of them whitespace bytes: `row` and `bol` follow the newline bytes
among them. -/
def SkipSpec (l l2 : Lexer) : Prop :=
  l.cur ≤ l2.cur ∧ l2.cur ≤ l.size ∧
    (∀ i, l.cur ≤ i → i < l2.cur → isspace (l.byte i) = true) ∧
    l2.row = (if newlines_between l.content l.cur l2.cur = 0 then l.row
      else (l.row + newlines_between l.content l.cur l2.cur) % SIZE_MODULUS) ∧
    l2.bol = (if newlines_between l.content l.cur l2.cur = 0 then l.bol
      else line_start l.content l2.cur) ∧
    (newlines_between l.content l.cur l2.cur ≠ 0 → l.cur < l2.bol)

/-- The bookkeeping of a lexer agrees with the bytes before its cursor. -/
def LocInv (l : Lexer) : Prop :=
  l.cur ≤ l.size ∧ l.row = newline_count l.content l.cur ∧
    l.bol = line_start l.content l.cur

/-! ## The single-byte advance -/

theorem lexer_chop_char_eq (l : Lexer) :
    lexer_chop_char l =
      if l.cur < l.size then
        if l.byte l.cur = 10 then
          (true, { l with cur := l.cur + 1, row := (l.row + 1) % SIZE_MODULUS, bol := l.cur + 1 })
        else (false, { l with cur := l.cur + 1 })
      else (false, l) := rfl

theorem lexer_chop_char_content (l : Lexer) : (lexer_chop_char l).2.content = l.content := by
  rw [lexer_chop_char_eq]
  split_ifs <;> rfl

theorem lexer_chop_char_puncts (l : Lexer) : (lexer_chop_char l).2.puncts = l.puncts := by
  rw [lexer_chop_char_eq]
  split_ifs <;> rfl

theorem lexer_chop_char_size (l : Lexer) : (lexer_chop_char l).2.size = l.size := by
  unfold Lexer.size
  rw [lexer_chop_char_content]

theorem lexer_chop_char_cur_lt (l : Lexer) (h : l.cur < l.size) :
    (lexer_chop_char l).2.cur = l.cur + 1 := by
  rw [lexer_chop_char_eq, if_pos h]
  split_ifs <;> rfl

theorem lexer_chop_char_ge (l : Lexer) (h : l.size ≤ l.cur) : lexer_chop_char l = (false, l) := by
  rw [lexer_chop_char_eq, if_neg (by omega)]

theorem lexer_chop_char_fst (l : Lexer) :
    (lexer_chop_char l).1 = decide (l.cur < l.size ∧ l.byte l.cur = 10) := by
  rw [lexer_chop_char_eq]
  split_ifs <;> simp [*]

/-! ## The multi-byte advance -/

theorem lexer_chop_chars_content (l : Lexer) (n : Nat) :
    (lexer_chop_chars l n).content = l.content := by
  induction n generalizing l with
  | zero => rfl
  | succ n ih =>
    simp only [lexer_chop_chars]
    split_ifs
    · rw [ih, lexer_chop_char_content]
    · rw [lexer_chop_char_content]

theorem lexer_chop_chars_puncts (l : Lexer) (n : Nat) :
    (lexer_chop_chars l n).puncts = l.puncts := by
  induction n generalizing l with
  | zero => rfl
  | succ n ih =>
    simp only [lexer_chop_chars]
    split_ifs
    · rw [ih, lexer_chop_char_puncts]
    · rw [lexer_chop_char_puncts]

/-- With one byte to consume, `lexer_chop_chars` is one `lexer_chop_char`. -/
theorem lexer_chop_chars_one (l : Lexer) : lexer_chop_chars l 1 = (lexer_chop_char l).2 := by
  simp only [lexer_chop_chars]
  split_ifs <;> rfl

/-! ## The whitespace skip -/

theorem lexer_trim_left_ws_loop_content (fuel : Nat) (l : Lexer) :
    (lexer_trim_left_ws_loop fuel l).content = l.content := by
  induction fuel generalizing l with
  | zero => rfl
  | succ n ih =>
    simp only [lexer_trim_left_ws_loop]
    split_ifs
    · rw [ih, lexer_chop_char_content]
    · rfl

theorem lexer_trim_left_ws_loop_puncts (fuel : Nat) (l : Lexer) :
    (lexer_trim_left_ws_loop fuel l).puncts = l.puncts := by
  induction fuel generalizing l with
  | zero => rfl
  | succ n ih =>
    simp only [lexer_trim_left_ws_loop]
    split_ifs
    · rw [ih, lexer_chop_char_puncts]
    · rfl

theorem lexer_trim_left_ws_content (l : Lexer) :
    (lexer_trim_left_ws l).content = l.content :=
  lexer_trim_left_ws_loop_content _ l

theorem lexer_trim_left_ws_puncts (l : Lexer) :
    (lexer_trim_left_ws l).puncts = l.puncts :=
  lexer_trim_left_ws_loop_puncts _ l

theorem lexer_trim_left_ws_size (l : Lexer) : (lexer_trim_left_ws l).size = l.size := by
  unfold Lexer.size
  rw [lexer_trim_left_ws_content]

/-- The bound on the iterations is never what ends the loop: with `size - cur`
iterations allowed or more, the loop ends on its own condition. -/
theorem lexer_trim_left_ws_loop_stops (fuel : Nat) (l : Lexer) (h : l.size - l.cur ≤ fuel) :
    ¬ ((lexer_trim_left_ws_loop fuel l).cur < (lexer_trim_left_ws_loop fuel l).size ∧
      isspace ((lexer_trim_left_ws_loop fuel l).byte (lexer_trim_left_ws_loop fuel l).cur)
        = true) := by
  induction fuel generalizing l with
  | zero =>
    simp only [lexer_trim_left_ws_loop]
    intro hc
    omega
  | succ n ih =>
    simp only [lexer_trim_left_ws_loop]
    split_ifs with hc
    · apply ih
      rw [lexer_chop_char_size, lexer_chop_char_cur_lt l hc.1]
      omega
    · exact hc

/-- More iterations than `size - cur` change nothing. -/
theorem lexer_trim_left_ws_loop_fuel (fuel : Nat) (l : Lexer) (h : l.size - l.cur ≤ fuel) :
    lexer_trim_left_ws_loop fuel l = lexer_trim_left_ws l := by
  unfold lexer_trim_left_ws
  induction fuel generalizing l with
  | zero =>
    have h0 : l.size - l.cur = 0 := by omega
    rw [h0]
  | succ n ih =>
    rcases Nat.lt_or_ge l.cur l.size with hlt | hge
    · obtain ⟨m, hm⟩ : ∃ m, l.size - l.cur = m + 1 := ⟨l.size - l.cur - 1, by omega⟩
      rw [hm]
      simp only [lexer_trim_left_ws_loop]
      split_ifs with hc
      · have e1 := ih (lexer_chop_char l).2
          (by rw [lexer_chop_char_size, lexer_chop_char_cur_lt l hlt]; omega)
        rw [e1, lexer_chop_char_size, lexer_chop_char_cur_lt l hlt]
        have e2 : l.size - (l.cur + 1) = m := by omega
        rw [e2]
      · rfl
    · have h0 : l.size - l.cur = 0 := by omega
      rw [h0]
      simp only [lexer_trim_left_ws_loop]
      rw [if_neg (by intro hc; omega)]

theorem lexer_trim_left_ws_stops (l : Lexer) :
    ¬ ((lexer_trim_left_ws l).cur < (lexer_trim_left_ws l).size ∧
      isspace ((lexer_trim_left_ws l).byte (lexer_trim_left_ws l).cur) = true) :=
  lexer_trim_left_ws_loop_stops _ l (Nat.le_refl _)

/-- At the end of the buffer the whitespace skip does nothing. -/
theorem lexer_trim_left_ws_ge (l : Lexer) (h : l.size ≤ l.cur) : lexer_trim_left_ws l = l := by
  unfold lexer_trim_left_ws
  have h0 : l.size - l.cur = 0 := by omega
  rw [h0]
  rfl

/-! ## The prefix comparison -/

/-- What the loop of `lexer_starts_with` computes when it may run `len - i`
times or more: the literal and the buffer agree at every index from `i` that is
below `len` and inside the buffer. -/
theorem lexer_starts_with_loop_iff (l : Lexer) (pre : List Nat) (len fuel i : Nat)
    (h : len ≤ fuel + i) :
    lexer_starts_with_loop l pre len fuel i = true ↔
      ∀ j, i ≤ j → j < len → j + l.cur < l.size → l.byte (l.cur + j) = pre.getD j 0 := by
  induction fuel generalizing i with
  | zero =>
    simp only [lexer_starts_with_loop, true_iff]
    intro j h1 h2
    omega
  | succ n ih =>
    simp only [lexer_starts_with_loop]
    split_ifs with hc hne
    · simp only [Bool.false_eq_true, false_iff, not_forall]
      exact ⟨i, Nat.le_refl i, hc.2, hc.1, hne⟩
    · rw [ih (i + 1) (by omega)]
      have heq : l.byte (l.cur + i) = pre.getD i 0 := not_not.mp hne
      constructor
      · intro hall j h1 h2 h3
        rcases Nat.eq_or_lt_of_le h1 with he | hl
        · subst he
          exact heq
        · exact hall j hl h2 h3
      · intro hall j h1 h2 h3
        exact hall j (by omega) h2 h3
    · simp only [true_iff]
      intro j h1 h2 h3
      exact absurd ⟨by omega, by omega⟩ hc

/-- What `lexer_starts_with` computes: agreement on the bytes that the buffer
still has; bytes of the literal beyond the end of the buffer are not compared. -/
theorem lexer_starts_with_iff (l : Lexer) (pre : List Nat) (len : Nat) :
    lexer_starts_with l pre len = true ↔
      ∀ j, j < len → j + l.cur < l.size → l.byte (l.cur + j) = pre.getD j 0 := by
  unfold lexer_starts_with
  rw [lexer_starts_with_loop_iff l pre len len 0 (by omega)]
  constructor
  · intro hall j h2 h3
    exact hall j (Nat.zero_le j) h2 h3
  · intro hall j _ h2 h3
    exact hall j h2 h3

/-! ## The scan of the punctuation table -/

theorem lexer_get_token_puncts_spec (l : Lexer) (t : Lexer_Token) (ps : List (List Nat))
    (i : Nat) :
    (lexer_get_token_puncts l t ps i = none ∧
      ∀ p ∈ ps, lexer_starts_with l p (strlen p) = false) ∨
    (∃ k, k < ps.length ∧
      lexer_starts_with l (ps.getD k []) (strlen (ps.getD k [])) = true ∧
      (∀ j, j < k → lexer_starts_with l (ps.getD j []) (strlen (ps.getD j [])) = false) ∧
      lexer_get_token_puncts l t ps i =
        some ({ t with kind := Lexer_Kind.LEXER_PUNCT, punct_index := i + k,
                       end_ := t.end_ + strlen (ps.getD k []) },
              lexer_chop_chars l (strlen (ps.getD k [])))) := by
  induction ps generalizing i with
  | nil =>
    left
    exact ⟨rfl, fun p hp => absurd hp (List.not_mem_nil p)⟩
  | cons p ps ih =>
    by_cases hp : lexer_starts_with l p (strlen p) = true
    · right
      refine ⟨0, by simp, ?_, fun j hj => absurd hj (Nat.not_lt_zero j), ?_⟩
      · simpa using hp
      · simp only [lexer_get_token_puncts, hp, if_true, List.getD_cons_zero, Nat.add_zero]
    · have hp0 : lexer_starts_with l p (strlen p) = false := by simpa using hp
      rcases ih (i + 1) with ⟨hn, hall⟩ | ⟨k, hk, hm, hbefore, hres⟩
      · left
        refine ⟨?_, ?_⟩
        · simp only [lexer_get_token_puncts, hp0, Bool.false_eq_true, if_false, hn]
        · intro q hq
          rcases List.mem_cons.mp hq with he | hin
          · rw [he]; exact hp0
          · exact hall q hin
      · right
        refine ⟨k + 1, by simp; omega, ?_, ?_, ?_⟩
        · simpa using hm
        · intro j hj
          cases j with
          | zero => simpa using hp0
          | succ j => simpa using hbefore j (by omega)
        · simp only [lexer_get_token_puncts, hp0, Bool.false_eq_true, if_false, hres,
            List.getD_cons_succ]
          have e : i + 1 + k = i + (k + 1) := by omega
          rw [e]

/-! ## The token production -/

/-- The three outcomes of `lexer_get_token`, in terms of the lexer `l1` left by
the whitespace skip: end of buffer; the first table entry that
`lexer_starts_with` accepts; no entry accepted. -/
theorem lexer_get_token_cases (l : Lexer) :
    ((lexer_trim_left_ws l).size ≤ (lexer_trim_left_ws l).cur ∧
      lexer_get_token l =
        (false,
         { begin := (lexer_trim_left_ws l).cur, end_ := (lexer_trim_left_ws l).cur,
           loc := lexer_loc (lexer_trim_left_ws l), kind := Lexer_Kind.LEXER_END,
           punct_index := 0, kw_index := 0 },
         lexer_trim_left_ws l)) ∨
    ((lexer_trim_left_ws l).cur < (lexer_trim_left_ws l).size ∧
      ∃ k, k < l.puncts.length ∧
        lexer_starts_with (lexer_trim_left_ws l) (l.puncts.getD k [])
          (strlen (l.puncts.getD k [])) = true ∧
        (∀ j, j < k → lexer_starts_with (lexer_trim_left_ws l) (l.puncts.getD j [])
          (strlen (l.puncts.getD j [])) = false) ∧
        lexer_get_token l =
          (true,
           { begin := (lexer_trim_left_ws l).cur,
             end_ := (lexer_trim_left_ws l).cur + strlen (l.puncts.getD k []),
             loc := lexer_loc (lexer_trim_left_ws l), kind := Lexer_Kind.LEXER_PUNCT,
             punct_index := k, kw_index := 0 },
           lexer_chop_chars (lexer_trim_left_ws l) (strlen (l.puncts.getD k [])))) ∨
    ((lexer_trim_left_ws l).cur < (lexer_trim_left_ws l).size ∧
      (∀ p ∈ l.puncts, lexer_starts_with (lexer_trim_left_ws l) p (strlen p) = false) ∧
      lexer_get_token l =
        (false,
         { begin := (lexer_trim_left_ws l).cur, end_ := (lexer_trim_left_ws l).cur + 1,
           loc := lexer_loc (lexer_trim_left_ws l), kind := Lexer_Kind.LEXER_INVALID,
           punct_index := 0, kw_index := 0 },
         (lexer_chop_char (lexer_trim_left_ws l)).2)) := by
  rcases Nat.lt_or_ge (lexer_trim_left_ws l).cur (lexer_trim_left_ws l).size with hlt | hge
  · right
    have hnot : ¬ ((lexer_trim_left_ws l).cur ≥ (lexer_trim_left_ws l).size) := by omega
    rcases lexer_get_token_puncts_spec (lexer_trim_left_ws l)
        { begin := (lexer_trim_left_ws l).cur, end_ := (lexer_trim_left_ws l).cur,
          loc := lexer_loc (lexer_trim_left_ws l), kind := Lexer_Kind.LEXER_INVALID,
          punct_index := 0, kw_index := 0 }
        (lexer_trim_left_ws l).puncts 0 with ⟨hn, hall⟩ | ⟨k, hk, hm, hbefore, hres⟩
    · right
      refine ⟨hlt, ?_, ?_⟩
      · rw [← lexer_trim_left_ws_puncts l]
        exact hall
      · simp only [lexer_get_token, hnot, if_false, hn]
    · left
      rw [lexer_trim_left_ws_puncts l] at hk hm hbefore hres
      refine ⟨hlt, k, hk, hm, hbefore, ?_⟩
      simp only [lexer_get_token, hnot, if_false, lexer_trim_left_ws_puncts, hres, Nat.zero_add]
  · left
    refine ⟨hge, ?_⟩
    simp only [lexer_get_token, hge, ge_iff_le, if_true]

/-! ## Rows and columns -/

theorem newline_count_le (c : List Nat) (k : Nat) : newline_count c k ≤ k := by
  unfold newline_count
  exact Nat.le_trans (List.count_le_length _ _) (List.length_take_le k c)

theorem newline_count_succ (c : List Nat) (k : Nat) (hk : k < c.length) :
    newline_count c (k + 1) = newline_count c k + (if c.getD k 0 = 10 then 1 else 0) := by
  unfold newline_count
  rw [List.take_succ, List.count_append, List.getD_eq_getElem c 0 hk,
    List.getElem?_eq_getElem hk]
  simp only [Option.toList, List.count_singleton, beq_iff_eq]

theorem line_start_le (c : List Nat) (k : Nat) : line_start c k ≤ k := by
  induction k with
  | zero => exact Nat.le_refl 0
  | succ k ih =>
    simp only [line_start]
    split_ifs
    · exact Nat.le_refl _
    · omega

theorem line_start_after_newline (c : List Nat) (k : Nat) :
    line_start c k = 0 ∨ c.getD (line_start c k - 1) 0 = 10 := by
  induction k with
  | zero => left; rfl
  | succ k ih =>
    simp only [line_start]
    split_ifs with h
    · right
      simpa using h
    · exact ih

theorem line_start_no_newline (c : List Nat) (k j : Nat) (h1 : line_start c k ≤ j)
    (h2 : j < k) : c.getD j 0 ≠ 10 := by
  induction k with
  | zero => omega
  | succ k ih =>
    simp only [line_start] at h1
    split_ifs at h1 with h
    · omega
    · rcases Nat.eq_or_lt_of_le (Nat.le_of_lt_succ h2) with he | hl
      · rw [he]; exact h
      · exact ih h1 hl

theorem LocInv_chop_char (l : Lexer) (hfit : l.size + 1 < SIZE_MODULUS) (h : LocInv l) :
    LocInv (lexer_chop_char l).2 := by
  obtain ⟨h1, h2, h3⟩ := h
  rw [lexer_chop_char_eq]
  split_ifs with hlt hnl
  · refine ⟨hlt, ?_, ?_⟩
    · show (l.row + 1) % SIZE_MODULUS = newline_count l.content (l.cur + 1)
      have hb : l.content.getD l.cur 0 = 10 := hnl
      have hle := newline_count_le l.content l.cur
      rw [newline_count_succ l.content l.cur hlt, if_pos hb, h2]
      apply Nat.mod_eq_of_lt
      omega
    · show l.cur + 1 = line_start l.content (l.cur + 1)
      have hb : l.content.getD l.cur 0 = 10 := hnl
      simp only [line_start, hb, if_true]
  · refine ⟨hlt, ?_, ?_⟩
    · show l.row = newline_count l.content (l.cur + 1)
      have hb : ¬ l.content.getD l.cur 0 = 10 := hnl
      rw [newline_count_succ l.content l.cur hlt, if_neg hb, h2, Nat.add_zero]
    · show l.bol = line_start l.content (l.cur + 1)
      have hb : ¬ l.content.getD l.cur 0 = 10 := hnl
      simp only [line_start, hb, if_false, h3]
  · exact ⟨h1, h2, h3⟩

theorem LocInv_chop_chars (l : Lexer) (n : Nat) (hfit : l.size + 1 < SIZE_MODULUS)
    (h : LocInv l) : LocInv (lexer_chop_chars l n) := by
  induction n generalizing l with
  | zero => exact h
  | succ n ih =>
    simp only [lexer_chop_chars]
    split_ifs
    · exact ih _ (by rw [lexer_chop_char_size]; exact hfit) (LocInv_chop_char l hfit h)
    · exact LocInv_chop_char l hfit h

theorem LocInv_trim_left_ws_loop (fuel : Nat) (l : Lexer) (hfit : l.size + 1 < SIZE_MODULUS)
    (h : LocInv l) : LocInv (lexer_trim_left_ws_loop fuel l) := by
  induction fuel generalizing l with
  | zero => exact h
  | succ n ih =>
    simp only [lexer_trim_left_ws_loop]
    split_ifs
    · exact ih _ (by rw [lexer_chop_char_size]; exact hfit) (LocInv_chop_char l hfit h)
    · exact h

theorem LocInv_trim_left_ws (l : Lexer) (hfit : l.size + 1 < SIZE_MODULUS) (h : LocInv l) :
    LocInv (lexer_trim_left_ws l) :=
  LocInv_trim_left_ws_loop _ l hfit h

theorem lexer_get_token_content (l : Lexer) : (lexer_get_token l).2.2.content = l.content := by
  rcases lexer_get_token_cases l with ⟨_, he⟩ | ⟨_, k, _, _, _, he⟩ | ⟨_, _, he⟩
  · rw [he]; exact lexer_trim_left_ws_content l
  · rw [he]
    show (lexer_chop_chars _ _).content = _
    rw [lexer_chop_chars_content, lexer_trim_left_ws_content]
  · rw [he]
    show (lexer_chop_char _).2.content = _
    rw [lexer_chop_char_content, lexer_trim_left_ws_content]

theorem lexer_get_token_begin (l : Lexer) :
    (lexer_get_token l).2.1.begin = (lexer_trim_left_ws l).cur := by
  rcases lexer_get_token_cases l with ⟨_, he⟩ | ⟨_, k, _, _, _, he⟩ | ⟨_, _, he⟩ <;> rw [he]

theorem lexer_get_token_loc (l : Lexer) :
    (lexer_get_token l).2.1.loc = lexer_loc (lexer_trim_left_ws l) := by
  rcases lexer_get_token_cases l with ⟨_, he⟩ | ⟨_, k, _, _, _, he⟩ | ⟨_, _, he⟩ <;> rw [he]

theorem LocInv_get_token (l : Lexer) (hfit : l.size + 1 < SIZE_MODULUS) (h : LocInv l) :
    LocInv (lexer_get_token l).2.2 := by
  have ht := LocInv_trim_left_ws l hfit h
  have hfit1 : (lexer_trim_left_ws l).size + 1 < SIZE_MODULUS := by
    rw [lexer_trim_left_ws_size]; exact hfit
  rcases lexer_get_token_cases l with ⟨_, he⟩ | ⟨_, k, _, _, _, he⟩ | ⟨_, _, he⟩
  · rw [he]; exact ht
  · rw [he]; exact LocInv_chop_chars _ _ hfit1 ht
  · rw [he]; exact LocInv_chop_char _ hfit1 ht

theorem lexer_after_calls_content (l : Lexer) (k : Nat) :
    (lexer_after_calls l k).content = l.content := by
  induction k with
  | zero => rfl
  | succ k ih =>
    simp only [lexer_after_calls]
    rw [lexer_get_token_content, ih]

theorem LocInv_after_calls (l : Lexer) (k : Nat) (hfit : l.size + 1 < SIZE_MODULUS)
    (h : LocInv l) : LocInv (lexer_after_calls l k) := by
  induction k with
  | zero => exact h
  | succ k ih =>
    simp only [lexer_after_calls]
    apply LocInv_get_token _ _ ih
    unfold Lexer.size
    rw [lexer_after_calls_content]
    exact hfit

/-- When the bookkeeping agrees with the buffer, `lexer_loc` gives the 1-based
row and column of the cursor. -/
theorem lexer_loc_of_LocInv (l : Lexer) (hfit : l.size + 1 < SIZE_MODULUS) (h : LocInv l) :
    (lexer_loc l).row = newline_count l.content l.cur + 1 ∧
      (lexer_loc l).col = l.cur - line_start l.content l.cur + 1 := by
  obtain ⟨h1, h2, h3⟩ := h
  have hle := newline_count_le l.content l.cur
  have hls := line_start_le l.content l.cur
  constructor
  · show (l.row + 1) % SIZE_MODULUS = _
    rw [h2]
    apply Nat.mod_eq_of_lt
    omega
  · show (((l.cur : Int) - (l.bol : Int) + 1) % (SIZE_MODULUS : Int)).toNat = _
    rw [h3]
    simp only [SIZE_MODULUS] at hfit ⊢
    omega

/-! ## The claims -/

/-- C1 (evaluation of the code): on the buffer `ab` with the table ["ab"] the
first call returns a Punct token with span [0,2) but leaves the cursor at 1, not
at the token's end; the second call returns an Invalid token with span [1,2),
which begins before the end of the first token, so the spans do not tile the
buffer. -/
theorem C1_cursor_behind_token_end :
    (lexer_nth_call (lexer_create "rules.lex" [97, 98] [[97, 98]]) 0).2.1.kind
        = Lexer_Kind.LEXER_PUNCT ∧
      (lexer_nth_call (lexer_create "rules.lex" [97, 98] [[97, 98]]) 0).2.1.begin = 0 ∧
      (lexer_nth_call (lexer_create "rules.lex" [97, 98] [[97, 98]]) 0).2.1.end_ = 2 ∧
      (lexer_nth_call (lexer_create "rules.lex" [97, 98] [[97, 98]]) 0).2.2.cur = 1 ∧
      (lexer_nth_call (lexer_create "rules.lex" [97, 98] [[97, 98]]) 1).2.1.kind
        = Lexer_Kind.LEXER_INVALID ∧
      (lexer_nth_call (lexer_create "rules.lex" [97, 98] [[97, 98]]) 1).2.1.begin = 1 ∧
      (lexer_nth_call (lexer_create "rules.lex" [97, 98] [[97, 98]]) 1).2.1.end_ = 2 := by
  decide

/-- C2: in a state with `cur >= size`, every call of `lexer_get_token` (the
first and every later one) returns false with an End token whose begin and end
are `cur` and whose location is that of the state, and leaves the whole lexer
state unchanged. -/
theorem C2_end_idempotent (l : Lexer) (h : l.cur ≥ l.size) (k : Nat) :
    lexer_nth_call l k =
      (false,
       { begin := l.cur, end_ := l.cur, loc := lexer_loc l, kind := Lexer_Kind.LEXER_END,
         punct_index := 0, kw_index := 0 },
       l) := by
  have h1 : lexer_get_token l =
      (false,
       { begin := l.cur, end_ := l.cur, loc := lexer_loc l, kind := Lexer_Kind.LEXER_END,
         punct_index := 0, kw_index := 0 },
       l) := by
    simp only [lexer_get_token, lexer_trim_left_ws_ge l h, h, if_true]
  have h2 : ∀ n, lexer_after_calls l n = l := by
    intro n
    induction n with
    | zero => rfl
    | succ n ih => simp only [lexer_after_calls, ih, h1]
  unfold lexer_nth_call
  rw [h2 k, h1]

theorem C2_end_idempotent_witness :
    (lexer_create "rules.lex" [] puncts).cur ≥ (lexer_create "rules.lex" [] puncts).size ∧
      lexer_nth_call (lexer_create "rules.lex" [] puncts) 3 =
        (false,
         { begin := 0, end_ := 0, loc := lexer_loc (lexer_create "rules.lex" [] puncts),
           kind := Lexer_Kind.LEXER_END, punct_index := 0, kw_index := 0 },
         lexer_create "rules.lex" [] puncts) :=
  ⟨by decide, C2_end_idempotent (lexer_create "rules.lex" [] puncts) (by decide) 3⟩

/-- C3: on a fresh lexer over a buffer that a `size_t` can count, the token
returned by any call has row `N + 1`, where `N` is the number of newline bytes
before its begin offset, and column `begin - s + 1`, where `s` is the offset
just after the last newline byte before begin: `s <= begin`, `s` is 0 or follows
a newline byte, and there is no newline byte in `[s, begin)`. -/
theorem C3_location_correct (file : String) (content : List Nat) (table : List (List Nat))
    (k : Nat) (hfit : content.length + 1 < SIZE_MODULUS) :
    (lexer_nth_call (lexer_create file content table) k).2.1.loc.row =
        newline_count content (lexer_nth_call (lexer_create file content table) k).2.1.begin + 1 ∧
      (lexer_nth_call (lexer_create file content table) k).2.1.loc.col =
        (lexer_nth_call (lexer_create file content table) k).2.1.begin -
          line_start content (lexer_nth_call (lexer_create file content table) k).2.1.begin + 1 ∧
      line_start content (lexer_nth_call (lexer_create file content table) k).2.1.begin ≤
        (lexer_nth_call (lexer_create file content table) k).2.1.begin ∧
      (line_start content (lexer_nth_call (lexer_create file content table) k).2.1.begin = 0 ∨
        content.getD
          (line_start content (lexer_nth_call (lexer_create file content table) k).2.1.begin - 1)
          0 = 10) ∧
      ∀ j, line_start content (lexer_nth_call (lexer_create file content table) k).2.1.begin ≤ j →
        j < (lexer_nth_call (lexer_create file content table) k).2.1.begin →
        content.getD j 0 ≠ 10 := by
  have h0 : LocInv (lexer_create file content table) := ⟨Nat.zero_le _, rfl, rfl⟩
  have hk := LocInv_after_calls (lexer_create file content table) k hfit h0
  have hc := lexer_after_calls_content (lexer_create file content table) k
  have hc0 : (lexer_create file content table).content = content := rfl
  rw [hc0] at hc
  have hfitk : (lexer_after_calls (lexer_create file content table) k).size + 1
      < SIZE_MODULUS := by
    unfold Lexer.size; rw [hc]; exact hfit
  have ht := LocInv_trim_left_ws _ hfitk hk
  have hfitt : (lexer_trim_left_ws (lexer_after_calls (lexer_create file content table) k)).size
      + 1 < SIZE_MODULUS := by
    rw [lexer_trim_left_ws_size]; exact hfitk
  have hloc := lexer_loc_of_LocInv _ hfitt ht
  rw [lexer_trim_left_ws_content, hc] at hloc
  unfold lexer_nth_call
  rw [lexer_get_token_begin, lexer_get_token_loc]
  exact ⟨hloc.1, hloc.2, line_start_le _ _, line_start_after_newline _ _,
    fun j h1 h2 => line_start_no_newline _ _ j h1 h2⟩

theorem C3_location_correct_witness :
    [97, 10, 32, 44].length + 1 < SIZE_MODULUS ∧
      (lexer_nth_call (lexer_create "rules.lex" [97, 10, 32, 44] puncts) 1).2.1.begin = 3 ∧
      (lexer_nth_call (lexer_create "rules.lex" [97, 10, 32, 44] puncts) 1).2.1.loc.row =
        newline_count [97, 10, 32, 44] 3 + 1 ∧
      newline_count [97, 10, 32, 44] 3 = 1 ∧
      (lexer_nth_call (lexer_create "rules.lex" [97, 10, 32, 44] puncts) 1).2.1.loc.col =
        3 - line_start [97, 10, 32, 44] 3 + 1 ∧
      line_start [97, 10, 32, 44] 3 = 2 :=
  ⟨by decide, by decide,
    (C3_location_correct "rules.lex" [97, 10, 32, 44] puncts 1 (by decide)).1,
    by decide,
    (C3_location_correct "rules.lex" [97, 10, 32, 44] puncts 1 (by decide)).2.1,
    by decide⟩

/-- C4 (evaluation of the code): on the buffer `a(` with the table ["()"], the
second call on a fresh lexer returns a Punct token with begin 1 and end 3,
beyond the buffer size 2. -/
theorem C4_token_end_beyond_size :
    (lexer_create "rules.lex" [97, 40] [[40, 41]]).size = 2 ∧
      (lexer_nth_call (lexer_create "rules.lex" [97, 40] [[40, 41]]) 1).2.1.kind
        = Lexer_Kind.LEXER_PUNCT ∧
      (lexer_nth_call (lexer_create "rules.lex" [97, 40] [[40, 41]]) 1).2.1.begin = 1 ∧
      (lexer_nth_call (lexer_create "rules.lex" [97, 40] [[40, 41]]) 1).2.1.end_ = 3 := by
  decide

/-- C5: on the buffer `a, b` with the table [",", ";"], the calls on a fresh
lexer return Invalid [0,1), Punct [1,2) with index 0, Invalid [3,4) and End
with begin = end = 4; only the first Punct call returns true. -/
theorem C5_scenario_a_comma_b :
    (lexer_nth_call (lexer_create "rules.lex" [97, 44, 32, 98] [[44], [59]]) 0).2.1 =
        { begin := 0, end_ := 1, loc := { file_path := "rules.lex", row := 1, col := 1 },
          kind := Lexer_Kind.LEXER_INVALID, punct_index := 0, kw_index := 0 } ∧
      (lexer_nth_call (lexer_create "rules.lex" [97, 44, 32, 98] [[44], [59]]) 1).2.1 =
        { begin := 1, end_ := 2, loc := { file_path := "rules.lex", row := 1, col := 2 },
          kind := Lexer_Kind.LEXER_PUNCT, punct_index := 0, kw_index := 0 } ∧
      (lexer_nth_call (lexer_create "rules.lex" [97, 44, 32, 98] [[44], [59]]) 2).2.1 =
        { begin := 3, end_ := 4, loc := { file_path := "rules.lex", row := 1, col := 4 },
          kind := Lexer_Kind.LEXER_INVALID, punct_index := 0, kw_index := 0 } ∧
      (lexer_nth_call (lexer_create "rules.lex" [97, 44, 32, 98] [[44], [59]]) 3).2.1 =
        { begin := 4, end_ := 4, loc := { file_path := "rules.lex", row := 1, col := 5 },
          kind := Lexer_Kind.LEXER_END, punct_index := 0, kw_index := 0 } ∧
      (lexer_nth_call (lexer_create "rules.lex" [97, 44, 32, 98] [[44], [59]]) 0).1 = false ∧
      (lexer_nth_call (lexer_create "rules.lex" [97, 44, 32, 98] [[44], [59]]) 1).1 = true ∧
      (lexer_nth_call (lexer_create "rules.lex" [97, 44, 32, 98] [[44], [59]]) 2).1 = false ∧
      (lexer_nth_call (lexer_create "rules.lex" [97, 44, 32, 98] [[44], [59]]) 3).1 = false := by
  decide

/-- C6 (evaluation of the code): on the one-byte buffer `(` with the table
["()"], `lexer_starts_with` accepts the two-byte literal and `lexer_get_token`
returns true with a Punct token of index 0 and span [0,2), not an Invalid
token. -/
theorem C6_short_buffer_reports_punct :
    lexer_starts_with (lexer_create "rules.lex" [40] [[40, 41]]) [40, 41] 2 = true ∧
      lexer_get_token (lexer_create "rules.lex" [40] [[40, 41]]) =
        (true,
         { begin := 0, end_ := 2, loc := { file_path := "rules.lex", row := 1, col := 1 },
           kind := Lexer_Kind.LEXER_PUNCT, punct_index := 0, kw_index := 0 },
         { file_path := "rules.lex", content := [40], bol := 0, row := 0, cur := 1,
           puncts := [[40, 41]], keyboards := [] }) := by
  decide

theorem prefix_getD_eq {x y : List Nat} (h : x <+: y) (n : Nat) (hn : n < x.length) :
    x.getD n 0 = y.getD n 0 := by
  obtain ⟨r, hr⟩ := h
  rw [← hr, List.getD_append _ _ _ _ hn]

/-- When the literal of an entry is a prefix of the literal of another entry
and `lexer_starts_with` accepts the longer one, it accepts the shorter one. -/
theorem lexer_starts_with_shorter (l : Lexer) (p q : List Nat)
    (hpq : p.takeWhile (fun b => b != 0) <+: q.takeWhile (fun b => b != 0))
    (hq : lexer_starts_with l q (strlen q) = true) :
    lexer_starts_with l p (strlen p) = true := by
  rw [lexer_starts_with_iff] at hq ⊢
  intro j hj hin
  have hlen : strlen p ≤ strlen q := hpq.length_le
  have hjp : j < (p.takeWhile (fun b => b != 0)).length := hj
  have hjq : j < (q.takeWhile (fun b => b != 0)).length := Nat.lt_of_lt_of_le hj hlen
  rw [hq j hjq hin]
  have hp : p.takeWhile (fun b => b != 0) <+: p := List.takeWhile_prefix _
  have hq : q.takeWhile (fun b => b != 0) <+: q := List.takeWhile_prefix _
  have e1 := prefix_getD_eq hp j hjp
  have e2 := prefix_getD_eq hq j hjq
  rw [← e1, ← e2]
  exact (prefix_getD_eq hpq j hjp).symm

/-- For a one-byte literal and a cursor inside the buffer, `lexer_starts_with`
compares exactly the byte at the cursor. -/
theorem lexer_starts_with_single (l : Lexer) (x : Nat) (h : l.cur < l.size) :
    lexer_starts_with l [x] 1 = true ↔ l.byte l.cur = x := by
  rw [lexer_starts_with_iff]
  constructor
  · intro hall
    have := hall 0 (by omega) (by omega)
    simpa using this
  · intro he j hj _
    have hj0 : j = 0 := by omega
    subst hj0
    simpa using he

theorem lexer_starts_with_single_false (l : Lexer) (x : Nat) (h : l.cur < l.size) :
    lexer_starts_with l [x] 1 = false ↔ l.byte l.cur ≠ x := by
  rw [← Bool.not_eq_true, lexer_starts_with_single l x h]

/-- C7: (1) whenever `lexer_get_token` returns a Punct token, the token begins
at the cursor left by the whitespace skip and its `punct_index` is the least
index of a table entry that `lexer_starts_with` accepts there; (2) an earlier
entry that is not accepted never blocks a later one: when the cursor left by the
whitespace skip is before the end of the buffer and entry `j` is accepted
there, the call returns true with a Punct token of index at most `j`, and of
index exactly `j` when no entry before `j` is accepted; (3) with the table
["|", ","] the single byte `,` gives Punct with index 1, and with the table
["|", ",", ";"] the single byte `;` gives Punct with index 2; (4) when an
entry is a prefix of a later entry and the later one is accepted at the cursor,
the token is Punct with an index at most that of the earlier entry, never the
later one; with the table ["(", "()"] the buffer `()` gives index 0 and a
one-byte token. -/
theorem C7_first_match_in_table_order :
    (∀ l : Lexer, (lexer_get_token l).2.1.kind = Lexer_Kind.LEXER_PUNCT →
      (lexer_get_token l).2.1.begin = (lexer_trim_left_ws l).cur ∧
      (lexer_get_token l).2.1.punct_index < l.puncts.length ∧
      lexer_starts_with (lexer_trim_left_ws l)
        (l.puncts.getD (lexer_get_token l).2.1.punct_index [])
        (strlen (l.puncts.getD (lexer_get_token l).2.1.punct_index [])) = true ∧
      ∀ j, j < (lexer_get_token l).2.1.punct_index →
        lexer_starts_with (lexer_trim_left_ws l) (l.puncts.getD j [])
          (strlen (l.puncts.getD j [])) = false) ∧
    (∀ (l : Lexer) (j : Nat), j < l.puncts.length →
      (lexer_trim_left_ws l).cur < (lexer_trim_left_ws l).size →
      lexer_starts_with (lexer_trim_left_ws l) (l.puncts.getD j [])
        (strlen (l.puncts.getD j [])) = true →
      (lexer_get_token l).1 = true ∧
      (lexer_get_token l).2.1.kind = Lexer_Kind.LEXER_PUNCT ∧
      (lexer_get_token l).2.1.punct_index ≤ j ∧
      ((∀ i, i < j → lexer_starts_with (lexer_trim_left_ws l) (l.puncts.getD i [])
          (strlen (l.puncts.getD i [])) = false) →
        (lexer_get_token l).2.1.punct_index = j)) ∧
    ((lexer_get_token (lexer_create "rules.lex" [44] [[124], [44]])).2.1.kind
        = Lexer_Kind.LEXER_PUNCT ∧
      (lexer_get_token (lexer_create "rules.lex" [44] [[124], [44]])).2.1.punct_index = 1 ∧
      (lexer_get_token (lexer_create "rules.lex" [59] [[124], [44], [59]])).2.1.kind
        = Lexer_Kind.LEXER_PUNCT ∧
      (lexer_get_token (lexer_create "rules.lex" [59] [[124], [44], [59]])).2.1.punct_index
        = 2) ∧
    (∀ (l : Lexer) (i j : Nat), i < j → j < l.puncts.length →
      (l.puncts.getD i []).takeWhile (fun b => b != 0) <+:
        (l.puncts.getD j []).takeWhile (fun b => b != 0) →
      (lexer_trim_left_ws l).cur < (lexer_trim_left_ws l).size →
      lexer_starts_with (lexer_trim_left_ws l) (l.puncts.getD j [])
        (strlen (l.puncts.getD j [])) = true →
      (lexer_get_token l).2.1.kind = Lexer_Kind.LEXER_PUNCT ∧
        (lexer_get_token l).2.1.punct_index ≤ i) ∧
    ((lexer_get_token (lexer_create "rules.lex" [40, 41] [[40], [40, 41]])).2.1.kind
        = Lexer_Kind.LEXER_PUNCT ∧
      (lexer_get_token (lexer_create "rules.lex" [40, 41] [[40], [40, 41]])).2.1.punct_index = 0 ∧
      (lexer_get_token (lexer_create "rules.lex" [40, 41] [[40], [40, 41]])).2.1.end_ = 1) := by
  refine ⟨?_, ?_, by decide, ?_, by decide⟩
  · intro l hkind
    rcases lexer_get_token_cases l with ⟨_, he⟩ | ⟨_, k, hk, hm, hbefore, he⟩ | ⟨_, _, he⟩
    · rw [he] at hkind
      have hk2 : Lexer_Kind.LEXER_END = Lexer_Kind.LEXER_PUNCT := hkind
      cases hk2
    · rw [he]
      exact ⟨rfl, hk, hm, hbefore⟩
    · rw [he] at hkind
      have hk2 : Lexer_Kind.LEXER_INVALID = Lexer_Kind.LEXER_PUNCT := hkind
      cases hk2
  · intro l j hj hlt hmj
    rcases lexer_get_token_cases l with ⟨hge, _⟩ | ⟨_, k, hk, hm, hbefore, he⟩ | ⟨_, hall, _⟩
    · omega
    · rw [he]
      have hkj : k ≤ j := by
        by_contra hlt2
        have hf := hbefore j (by omega)
        rw [hmj] at hf
        exact absurd hf (by decide)
      refine ⟨rfl, rfl, hkj, ?_⟩
      intro hnone
      show k = j
      rcases Nat.eq_or_lt_of_le hkj with he2 | hl2
      · exact he2
      · have hf := hnone k hl2
        rw [hm] at hf
        exact absurd hf (by decide)
    · have hmem : l.puncts.getD j [] ∈ l.puncts := by
        rw [List.getD_eq_getElem _ _ hj]
        exact List.getElem_mem _
      have hf := hall _ hmem
      rw [hmj] at hf
      exact absurd hf (by decide)
  · intro l i j hij hj hpre hlt hmj
    have hmi := lexer_starts_with_shorter _ _ _ hpre hmj
    rcases lexer_get_token_cases l with ⟨hge, _⟩ | ⟨_, k, hk, hm, hbefore, he⟩ | ⟨_, hall, _⟩
    · omega
    · rw [he]
      refine ⟨rfl, ?_⟩
      show k ≤ i
      by_contra hlt2
      have hf := hbefore i (by omega)
      rw [hmi] at hf
      exact absurd hf (by decide)
    · have hmem : l.puncts.getD j [] ∈ l.puncts := by
        rw [List.getD_eq_getElem _ _ hj]
        exact List.getElem_mem _
      have hf := hall _ hmem
      rw [hmj] at hf
      exact absurd hf (by decide)

theorem C7_first_match_in_table_order_witness :
    (lexer_get_token (lexer_create "rules.lex" [32, 59] puncts)).2.1.kind
        = Lexer_Kind.LEXER_PUNCT ∧
      (lexer_get_token (lexer_create "rules.lex" [32, 59] puncts)).2.1.begin = 1 ∧
      (lexer_get_token (lexer_create "rules.lex" [32, 59] puncts)).2.1.punct_index = 4 ∧
      lexer_starts_with (lexer_trim_left_ws (lexer_create "rules.lex" [32, 59] puncts))
        [59] 1 = true ∧
      4 < (lexer_create "rules.lex" [32, 59] puncts).puncts.length ∧
      (lexer_trim_left_ws (lexer_create "rules.lex" [32, 59] puncts)).cur <
        (lexer_trim_left_ws (lexer_create "rules.lex" [32, 59] puncts)).size ∧
      (lexer_get_token (lexer_create "rules.lex" [32, 59] puncts)).1 = true ∧
      (lexer_get_token (lexer_create "rules.lex" [32, 59] puncts)).2.1.punct_index ≤ 4 :=
  ⟨by decide,
    (C7_first_match_in_table_order.1 (lexer_create "rules.lex" [32, 59] puncts) (by decide)).1,
    by decide,
    (C7_first_match_in_table_order.1 (lexer_create "rules.lex" [32, 59] puncts)
      (by decide)).2.2.1,
    by decide, by decide,
    (C7_first_match_in_table_order.2.1 (lexer_create "rules.lex" [32, 59] puncts) 4
      (by decide) (by decide) (by decide)).1,
    (C7_first_match_in_table_order.2.1 (lexer_create "rules.lex" [32, 59] puncts) 4
      (by decide) (by decide) (by decide)).2.2.1⟩

/-- C8: with the shipped table, when the whitespace skip leaves the cursor at a
byte `b` of the buffer, `lexer_get_token` returns a token of one byte starting
there, leaves the cursor just after it, and the token is Punct with index 0, 1,
2, 3, 4 when `b` is `|`, `,`, `(`, `)`, `;`, and Invalid for every other `b`. -/
theorem C8_shipped_table_classification (l : Lexer) (hp : l.puncts = puncts)
    (hlt : (lexer_trim_left_ws l).cur < (lexer_trim_left_ws l).size) :
    (lexer_get_token l).2.1.begin = (lexer_trim_left_ws l).cur ∧
      (lexer_get_token l).2.1.end_ = (lexer_trim_left_ws l).cur + 1 ∧
      (lexer_get_token l).2.2.cur = (lexer_trim_left_ws l).cur + 1 ∧
      ((lexer_trim_left_ws l).byte (lexer_trim_left_ws l).cur = 124 →
        (lexer_get_token l).2.1.kind = Lexer_Kind.LEXER_PUNCT ∧
          (lexer_get_token l).2.1.punct_index = 0) ∧
      ((lexer_trim_left_ws l).byte (lexer_trim_left_ws l).cur = 44 →
        (lexer_get_token l).2.1.kind = Lexer_Kind.LEXER_PUNCT ∧
          (lexer_get_token l).2.1.punct_index = 1) ∧
      ((lexer_trim_left_ws l).byte (lexer_trim_left_ws l).cur = 40 →
        (lexer_get_token l).2.1.kind = Lexer_Kind.LEXER_PUNCT ∧
          (lexer_get_token l).2.1.punct_index = 2) ∧
      ((lexer_trim_left_ws l).byte (lexer_trim_left_ws l).cur = 41 →
        (lexer_get_token l).2.1.kind = Lexer_Kind.LEXER_PUNCT ∧
          (lexer_get_token l).2.1.punct_index = 3) ∧
      ((lexer_trim_left_ws l).byte (lexer_trim_left_ws l).cur = 59 →
        (lexer_get_token l).2.1.kind = Lexer_Kind.LEXER_PUNCT ∧
          (lexer_get_token l).2.1.punct_index = 4) ∧
      ((lexer_trim_left_ws l).byte (lexer_trim_left_ws l).cur ≠ 124 →
        (lexer_trim_left_ws l).byte (lexer_trim_left_ws l).cur ≠ 44 →
        (lexer_trim_left_ws l).byte (lexer_trim_left_ws l).cur ≠ 40 →
        (lexer_trim_left_ws l).byte (lexer_trim_left_ws l).cur ≠ 41 →
        (lexer_trim_left_ws l).byte (lexer_trim_left_ws l).cur ≠ 59 →
        (lexer_get_token l).2.1.kind = Lexer_Kind.LEXER_INVALID) := by
  have hT := fun x => lexer_starts_with_single (lexer_trim_left_ws l) x hlt
  have hF := fun x => lexer_starts_with_single_false (lexer_trim_left_ws l) x hlt
  have hcc := lexer_chop_char_cur_lt (lexer_trim_left_ws l) hlt
  rcases lexer_get_token_cases l with ⟨hge, _⟩ | ⟨_, k, hk, hm, hbefore, he⟩ | ⟨_, hall, he⟩
  · omega
  · rw [hp] at hk hm hbefore he
    have hk5 : k < 5 := hk
    rw [he]
    interval_cases k
    · have e0 : _ = 124 := (hT 124).mp hm
      refine ⟨rfl, rfl, ?_, ?_, ?_, ?_, ?_, ?_, ?_⟩
      · rw [← hcc]; exact congrArg Lexer.cur (lexer_chop_chars_one _)
      all_goals first
        | (intro h; exact ⟨rfl, rfl⟩)
        | (intro h; omega)
    · have n0 : _ ≠ 124 := (hF 124).mp (hbefore 0 (by omega))
      have e1 : _ = 44 := (hT 44).mp hm
      refine ⟨rfl, rfl, ?_, ?_, ?_, ?_, ?_, ?_, ?_⟩
      · rw [← hcc]; exact congrArg Lexer.cur (lexer_chop_chars_one _)
      all_goals first
        | (intro h; exact ⟨rfl, rfl⟩)
        | (intro h; omega)
    · have n0 : _ ≠ 124 := (hF 124).mp (hbefore 0 (by omega))
      have n1 : _ ≠ 44 := (hF 44).mp (hbefore 1 (by omega))
      have e2 : _ = 40 := (hT 40).mp hm
      refine ⟨rfl, rfl, ?_, ?_, ?_, ?_, ?_, ?_, ?_⟩
      · rw [← hcc]; exact congrArg Lexer.cur (lexer_chop_chars_one _)
      all_goals first
        | (intro h; exact ⟨rfl, rfl⟩)
        | (intro h; omega)
    · have n0 : _ ≠ 124 := (hF 124).mp (hbefore 0 (by omega))
      have n1 : _ ≠ 44 := (hF 44).mp (hbefore 1 (by omega))
      have n2 : _ ≠ 40 := (hF 40).mp (hbefore 2 (by omega))
      have e3 : _ = 41 := (hT 41).mp hm
      refine ⟨rfl, rfl, ?_, ?_, ?_, ?_, ?_, ?_, ?_⟩
      · rw [← hcc]; exact congrArg Lexer.cur (lexer_chop_chars_one _)
      all_goals first
        | (intro h; exact ⟨rfl, rfl⟩)
        | (intro h; omega)
    · have n0 : _ ≠ 124 := (hF 124).mp (hbefore 0 (by omega))
      have n1 : _ ≠ 44 := (hF 44).mp (hbefore 1 (by omega))
      have n2 : _ ≠ 40 := (hF 40).mp (hbefore 2 (by omega))
      have n3 : _ ≠ 41 := (hF 41).mp (hbefore 3 (by omega))
      have e4 : _ = 59 := (hT 59).mp hm
      refine ⟨rfl, rfl, ?_, ?_, ?_, ?_, ?_, ?_, ?_⟩
      · rw [← hcc]; exact congrArg Lexer.cur (lexer_chop_chars_one _)
      all_goals first
        | (intro h; exact ⟨rfl, rfl⟩)
        | (intro h; omega)
  · rw [hp] at hall
    have n0 : _ ≠ 124 := (hF 124).mp (hall [124] (by decide))
    have n1 : _ ≠ 44 := (hF 44).mp (hall [44] (by decide))
    have n2 : _ ≠ 40 := (hF 40).mp (hall [40] (by decide))
    have n3 : _ ≠ 41 := (hF 41).mp (hall [41] (by decide))
    have n4 : _ ≠ 59 := (hF 59).mp (hall [59] (by decide))
    rw [he]
    refine ⟨rfl, rfl, hcc, ?_, ?_, ?_, ?_, ?_, ?_⟩
    all_goals first
      | (intro h; omega)
      | (intro h1 h2 h3 h4 h5; rfl)

theorem C8_shipped_table_classification_witness :
    (lexer_create "rules.lex" [32, 41, 120] puncts).puncts = puncts ∧
      (lexer_trim_left_ws (lexer_create "rules.lex" [32, 41, 120] puncts)).cur <
        (lexer_trim_left_ws (lexer_create "rules.lex" [32, 41, 120] puncts)).size ∧
      (lexer_trim_left_ws (lexer_create "rules.lex" [32, 41, 120] puncts)).byte
        (lexer_trim_left_ws (lexer_create "rules.lex" [32, 41, 120] puncts)).cur = 41 ∧
      (lexer_get_token (lexer_create "rules.lex" [32, 41, 120] puncts)).2.1.kind
        = Lexer_Kind.LEXER_PUNCT ∧
      (lexer_get_token (lexer_create "rules.lex" [32, 41, 120] puncts)).2.1.punct_index = 3 :=
  ⟨rfl, by decide, by decide,
    (C8_shipped_table_classification (lexer_create "rules.lex" [32, 41, 120] puncts) rfl
      (by decide)).2.2.2.2.2.2.1 (by decide)⟩

/-- C9: whenever `lexer_get_token` returns an Invalid token, the token is one
byte long, the cursor after the call is just after that byte, and the boolean
result is false. -/
theorem C9_invalid_is_one_byte (l : Lexer)
    (h : (lexer_get_token l).2.1.kind = Lexer_Kind.LEXER_INVALID) :
    (lexer_get_token l).2.1.end_ = (lexer_get_token l).2.1.begin + 1 ∧
      (lexer_get_token l).2.2.cur = (lexer_get_token l).2.1.begin + 1 ∧
      (lexer_get_token l).1 = false := by
  rcases lexer_get_token_cases l with ⟨_, he⟩ | ⟨_, k, _, _, _, he⟩ | ⟨hlt, _, he⟩
  · rw [he] at h
    have h2 : Lexer_Kind.LEXER_END = Lexer_Kind.LEXER_INVALID := h
    cases h2
  · rw [he] at h
    have h2 : Lexer_Kind.LEXER_PUNCT = Lexer_Kind.LEXER_INVALID := h
    cases h2
  · rw [he]
    exact ⟨rfl, lexer_chop_char_cur_lt _ hlt, rfl⟩

theorem C9_invalid_is_one_byte_witness :
    (lexer_get_token (lexer_create "rules.lex" [32, 97, 44] puncts)).2.1.kind
        = Lexer_Kind.LEXER_INVALID ∧
      (lexer_get_token (lexer_create "rules.lex" [32, 97, 44] puncts)).2.1.begin = 1 ∧
      (lexer_get_token (lexer_create "rules.lex" [32, 97, 44] puncts)).2.1.end_
        = (lexer_get_token (lexer_create "rules.lex" [32, 97, 44] puncts)).2.1.begin + 1 ∧
      (lexer_get_token (lexer_create "rules.lex" [32, 97, 44] puncts)).2.2.cur
        = (lexer_get_token (lexer_create "rules.lex" [32, 97, 44] puncts)).2.1.begin + 1 ∧
      (lexer_get_token (lexer_create "rules.lex" [32, 97, 44] puncts)).1 = false :=
  ⟨by decide, by decide,
    C9_invalid_is_one_byte (lexer_create "rules.lex" [32, 97, 44] puncts) (by decide)⟩

/-- C10: `lexer_get_token` returns true exactly when the returned token is
Punct; the returned kind is End, Punct or Invalid, and End and Invalid tokens
come with the result false. -/
theorem C10_result_true_iff_punct (l : Lexer) :
    ((lexer_get_token l).1 = true ↔ (lexer_get_token l).2.1.kind = Lexer_Kind.LEXER_PUNCT) ∧
      ((lexer_get_token l).2.1.kind = Lexer_Kind.LEXER_END ∧ (lexer_get_token l).1 = false ∨
        (lexer_get_token l).2.1.kind = Lexer_Kind.LEXER_PUNCT ∧ (lexer_get_token l).1 = true ∨
        (lexer_get_token l).2.1.kind = Lexer_Kind.LEXER_INVALID ∧
          (lexer_get_token l).1 = false) := by
  rcases lexer_get_token_cases l with ⟨_, he⟩ | ⟨_, k, _, _, _, he⟩ | ⟨_, _, he⟩
  · rw [he]
    refine ⟨⟨fun h => ?_, fun h => ?_⟩, Or.inl ⟨rfl, rfl⟩⟩
    · have h2 : false = true := h
      cases h2
    · have h2 : Lexer_Kind.LEXER_END = Lexer_Kind.LEXER_PUNCT := h
      cases h2
  · rw [he]
    exact ⟨⟨fun _ => rfl, fun _ => rfl⟩, Or.inr (Or.inl ⟨rfl, rfl⟩)⟩
  · rw [he]
    refine ⟨⟨fun h => ?_, fun h => ?_⟩, Or.inr (Or.inr ⟨rfl, rfl⟩)⟩
    · have h2 : false = true := h
      cases h2
    · have h2 : Lexer_Kind.LEXER_INVALID = Lexer_Kind.LEXER_PUNCT := h
      cases h2

/-! ## The cursor never moves back -/

theorem lexer_chop_char_mono (l : Lexer) (h : l.bol ≤ l.cur) :
    l.cur ≤ (lexer_chop_char l).2.cur ∧ (lexer_chop_char l).2.bol ≤ (lexer_chop_char l).2.cur := by
  rw [lexer_chop_char_eq]
  split_ifs
  · exact ⟨Nat.le_succ _, Nat.le_refl _⟩
  · exact ⟨Nat.le_succ _, Nat.le_succ_of_le h⟩
  · exact ⟨Nat.le_refl _, h⟩

theorem lexer_chop_char_le_size (l : Lexer) (h : l.cur ≤ l.size) :
    (lexer_chop_char l).2.cur ≤ l.size := by
  rcases Nat.lt_or_ge l.cur l.size with hlt | hge
  · rw [lexer_chop_char_cur_lt l hlt]; exact hlt
  · rw [lexer_chop_char_ge l hge]; exact h

theorem lexer_chop_chars_size (l : Lexer) (n : Nat) : (lexer_chop_chars l n).size = l.size := by
  unfold Lexer.size
  rw [lexer_chop_chars_content]

theorem lexer_chop_chars_mono (l : Lexer) (n : Nat) (h : l.bol ≤ l.cur) :
    l.cur ≤ (lexer_chop_chars l n).cur ∧
      (lexer_chop_chars l n).bol ≤ (lexer_chop_chars l n).cur := by
  induction n generalizing l with
  | zero => exact ⟨Nat.le_refl _, h⟩
  | succ n ih =>
    have h1 := lexer_chop_char_mono l h
    simp only [lexer_chop_chars]
    split_ifs
    · have h2 := ih (lexer_chop_char l).2 h1.2
      exact ⟨Nat.le_trans h1.1 h2.1, h2.2⟩
    · exact h1

theorem lexer_chop_chars_le_size (l : Lexer) (n : Nat) (h : l.cur ≤ l.size) :
    (lexer_chop_chars l n).cur ≤ l.size := by
  induction n generalizing l with
  | zero => exact h
  | succ n ih =>
    have h1 := lexer_chop_char_le_size l h
    simp only [lexer_chop_chars]
    split_ifs
    · have h2 := ih (lexer_chop_char l).2 (by rw [lexer_chop_char_size]; exact h1)
      rw [lexer_chop_char_size] at h2
      exact h2
    · exact h1

theorem lexer_trim_left_ws_loop_mono (fuel : Nat) (l : Lexer) (h : l.bol ≤ l.cur) :
    l.cur ≤ (lexer_trim_left_ws_loop fuel l).cur ∧
      (lexer_trim_left_ws_loop fuel l).bol ≤ (lexer_trim_left_ws_loop fuel l).cur := by
  induction fuel generalizing l with
  | zero => exact ⟨Nat.le_refl _, h⟩
  | succ n ih =>
    have h1 := lexer_chop_char_mono l h
    simp only [lexer_trim_left_ws_loop]
    split_ifs
    · have h2 := ih (lexer_chop_char l).2 h1.2
      exact ⟨Nat.le_trans h1.1 h2.1, h2.2⟩
    · exact ⟨Nat.le_refl _, h⟩

theorem lexer_trim_left_ws_loop_le_size (fuel : Nat) (l : Lexer) (h : l.cur ≤ l.size) :
    (lexer_trim_left_ws_loop fuel l).cur ≤ l.size := by
  induction fuel generalizing l with
  | zero => exact h
  | succ n ih =>
    simp only [lexer_trim_left_ws_loop]
    split_ifs
    · have h1 := lexer_chop_char_le_size l h
      have h2 := ih (lexer_chop_char l).2 (by rw [lexer_chop_char_size]; exact h1)
      rw [lexer_chop_char_size] at h2
      exact h2
    · exact h

theorem lexer_trim_left_ws_mono (l : Lexer) (h : l.bol ≤ l.cur) :
    l.cur ≤ (lexer_trim_left_ws l).cur ∧
      (lexer_trim_left_ws l).bol ≤ (lexer_trim_left_ws l).cur :=
  lexer_trim_left_ws_loop_mono _ l h

theorem lexer_trim_left_ws_le_size (l : Lexer) (h : l.cur ≤ l.size) :
    (lexer_trim_left_ws l).cur ≤ l.size :=
  lexer_trim_left_ws_loop_le_size _ l h

theorem lexer_get_token_mono (l : Lexer) (h : l.bol ≤ l.cur) :
    l.cur ≤ (lexer_get_token l).2.2.cur ∧
      (lexer_get_token l).2.2.bol ≤ (lexer_get_token l).2.2.cur := by
  have ht := lexer_trim_left_ws_mono l h
  rcases lexer_get_token_cases l with ⟨_, he⟩ | ⟨_, k, _, _, _, he⟩ | ⟨_, _, he⟩
  · rw [he]; exact ht
  · rw [he]
    have h2 := lexer_chop_chars_mono (lexer_trim_left_ws l) (strlen (l.puncts.getD k [])) ht.2
    exact ⟨Nat.le_trans ht.1 h2.1, h2.2⟩
  · rw [he]
    have h2 := lexer_chop_char_mono (lexer_trim_left_ws l) ht.2
    exact ⟨Nat.le_trans ht.1 h2.1, h2.2⟩

theorem lexer_get_token_le_size (l : Lexer) (h : l.cur ≤ l.size) :
    (lexer_get_token l).2.2.cur ≤ l.size := by
  have ht := lexer_trim_left_ws_le_size l h
  have ht2 : (lexer_trim_left_ws l).cur ≤ (lexer_trim_left_ws l).size := by
    rw [lexer_trim_left_ws_size]; exact ht
  rcases lexer_get_token_cases l with ⟨_, he⟩ | ⟨_, k, _, _, _, he⟩ | ⟨_, _, he⟩
  · rw [he]; exact ht
  · rw [he]
    have h2 := lexer_chop_chars_le_size (lexer_trim_left_ws l) (strlen (l.puncts.getD k [])) ht2
    rw [lexer_trim_left_ws_size] at h2
    exact h2
  · rw [he]
    have h2 := lexer_chop_char_le_size (lexer_trim_left_ws l) ht2
    rw [lexer_trim_left_ws_size] at h2
    exact h2

theorem lexer_get_token_size (l : Lexer) : (lexer_get_token l).2.2.size = l.size := by
  unfold Lexer.size
  rw [lexer_get_token_content]

theorem lexer_after_calls_size (l : Lexer) (k : Nat) : (lexer_after_calls l k).size = l.size := by
  unfold Lexer.size
  rw [lexer_after_calls_content]

theorem lexer_after_calls_bol_le (l : Lexer) (k : Nat) (h : l.bol ≤ l.cur) :
    (lexer_after_calls l k).bol ≤ (lexer_after_calls l k).cur := by
  induction k with
  | zero => exact h
  | succ k ih => exact (lexer_get_token_mono _ ih).2

theorem lexer_after_calls_le_size (l : Lexer) (k : Nat) (h : l.cur ≤ l.size) :
    (lexer_after_calls l k).cur ≤ l.size := by
  induction k with
  | zero => exact h
  | succ k ih =>
    have h2 := lexer_get_token_le_size (lexer_after_calls l k)
      (by rw [lexer_after_calls_size]; exact ih)
    rw [lexer_after_calls_size] at h2
    exact h2

/-- C11: applied to a state with `bol <= cur`, each of `lexer_chop_char`,
`lexer_chop_chars`, `lexer_trim_left_ws` and `lexer_get_token` yields a state
whose cursor is not below the old cursor and whose `bol` is at most the new
cursor; hence on a fresh lexer, after any number of calls of `lexer_get_token`,
`bol <= cur` holds, the next call does not move the cursor back, and the cursor
after `j` calls is at most the cursor after `k >= j` calls. -/
theorem C11_cursor_invariant (l : Lexer) (n : Nat) (h : l.bol ≤ l.cur) :
    (l.cur ≤ (lexer_chop_char l).2.cur ∧
      (lexer_chop_char l).2.bol ≤ (lexer_chop_char l).2.cur) ∧
    (l.cur ≤ (lexer_chop_chars l n).cur ∧
      (lexer_chop_chars l n).bol ≤ (lexer_chop_chars l n).cur) ∧
    (l.cur ≤ (lexer_trim_left_ws l).cur ∧
      (lexer_trim_left_ws l).bol ≤ (lexer_trim_left_ws l).cur) ∧
    (l.cur ≤ (lexer_get_token l).2.2.cur ∧
      (lexer_get_token l).2.2.bol ≤ (lexer_get_token l).2.2.cur) ∧
    ∀ (file : String) (content : List Nat) (table : List (List Nat)) (j k : Nat),
      (lexer_after_calls (lexer_create file content table) k).bol ≤
          (lexer_after_calls (lexer_create file content table) k).cur ∧
        (lexer_after_calls (lexer_create file content table) k).cur ≤
          (lexer_after_calls (lexer_create file content table) (k + 1)).cur ∧
        (j ≤ k → (lexer_after_calls (lexer_create file content table) j).cur ≤
          (lexer_after_calls (lexer_create file content table) k).cur) := by
  refine ⟨lexer_chop_char_mono l h, lexer_chop_chars_mono l n h, lexer_trim_left_ws_mono l h,
    lexer_get_token_mono l h, ?_⟩
  intro file content table j k
  have h0 : (lexer_create file content table).bol ≤ (lexer_create file content table).cur :=
    Nat.le_refl 0
  have hstep : ∀ m, (lexer_after_calls (lexer_create file content table) m).cur ≤
      (lexer_after_calls (lexer_create file content table) (m + 1)).cur := fun m =>
    (lexer_get_token_mono _ (lexer_after_calls_bol_le _ m h0)).1
  refine ⟨lexer_after_calls_bol_le _ k h0, hstep k, ?_⟩
  intro hjk
  induction k with
  | zero =>
    have hj0 : j = 0 := by omega
    rw [hj0]
  | succ k ih =>
    rcases Nat.eq_or_lt_of_le hjk with he | hl
    · rw [he]
    · exact Nat.le_trans (ih (by omega)) (hstep k)

theorem C11_cursor_invariant_witness :
    (lexer_create "rules.lex" [10, 97, 44] puncts).bol ≤
        (lexer_create "rules.lex" [10, 97, 44] puncts).cur ∧
      (lexer_get_token (lexer_create "rules.lex" [10, 97, 44] puncts)).2.2.cur = 2 ∧
      (lexer_get_token (lexer_create "rules.lex" [10, 97, 44] puncts)).2.2.bol = 1 ∧
      (lexer_create "rules.lex" [10, 97, 44] puncts).cur ≤
        (lexer_get_token (lexer_create "rules.lex" [10, 97, 44] puncts)).2.2.cur ∧
      (lexer_get_token (lexer_create "rules.lex" [10, 97, 44] puncts)).2.2.bol ≤
        (lexer_get_token (lexer_create "rules.lex" [10, 97, 44] puncts)).2.2.cur :=
  ⟨by decide, by decide, by decide,
    (C11_cursor_invariant (lexer_create "rules.lex" [10, 97, 44] puncts) 2
      (by decide)).2.2.2.1⟩

/-- C12 (evaluation of the code): with the cursor at offset 1 of the buffer
`a(`, one byte remains, and `lexer_starts_with` returns true for the two-byte
literal `()`; on the empty buffer it returns true for the literal `;`. -/
theorem C12_short_buffer_accepted :
    ({ file_path := "rules.lex", content := [97, 40], bol := 0, row := 0, cur := 1,
       puncts := [[40, 41]], keyboards := [] } : Lexer).size - 1 = 1 ∧
      lexer_starts_with
        { file_path := "rules.lex", content := [97, 40], bol := 0, row := 0, cur := 1,
          puncts := [[40, 41]], keyboards := [] } [40, 41] 2 = true ∧
      lexer_starts_with (lexer_create "rules.lex" [] [[59]]) [59] 1 = true := by
  decide

/-- C13 (evaluation of the code): on the one-byte buffer `a`, `lexer_chop_char`
consumes the byte (the cursor goes from 0 to 1) and returns false; on the
one-byte buffer holding a newline it consumes the byte and returns true. -/
theorem C13_result_false_after_consuming :
    (lexer_create "rules.lex" [97] puncts).cur < (lexer_create "rules.lex" [97] puncts).size ∧
      (lexer_chop_char (lexer_create "rules.lex" [97] puncts)).1 = false ∧
      (lexer_chop_char (lexer_create "rules.lex" [97] puncts)).2.cur = 1 ∧
      (lexer_chop_char (lexer_create "rules.lex" [10] puncts)).1 = true ∧
      (lexer_chop_char (lexer_create "rules.lex" [10] puncts)).2.cur = 1 := by
  decide

/-- C14 (evaluation of the code): on the buffer `ab`, `lexer_chop_chars(l, 2)`
advances the cursor from 0 to 1 only, with two bytes left in the buffer. -/
theorem C14_stops_after_first_byte :
    (lexer_create "rules.lex" [97, 98] puncts).size = 2 ∧
      (lexer_create "rules.lex" [97, 98] puncts).cur = 0 ∧
      (lexer_chop_chars (lexer_create "rules.lex" [97, 98] puncts) 2).cur = 1 := by
  decide

/-- C16: `lexer_chop_char` on a newline byte advances the cursor by one, sets
`row` to `row + 1` (in `size_t` arithmetic) and `bol` to the new cursor; on any
other byte it advances the cursor by one and leaves `row` and `bol` unchanged;
at the end of the buffer it leaves the whole state unchanged. -/
theorem C16_chop_char_bookkeeping (l : Lexer) :
    (l.cur < l.size → l.byte l.cur = 10 →
      (lexer_chop_char l).2.cur = l.cur + 1 ∧
      (lexer_chop_char l).2.row = (l.row + 1) % SIZE_MODULUS ∧
      (l.row + 1 < SIZE_MODULUS → (lexer_chop_char l).2.row = l.row + 1) ∧
      (lexer_chop_char l).2.bol = l.cur + 1) ∧
    (l.cur < l.size → l.byte l.cur ≠ 10 →
      (lexer_chop_char l).2.cur = l.cur + 1 ∧
      (lexer_chop_char l).2.row = l.row ∧
      (lexer_chop_char l).2.bol = l.bol) ∧
    (l.cur ≥ l.size →
      (lexer_chop_char l).2.cur = l.cur ∧
      (lexer_chop_char l).2.row = l.row ∧
      (lexer_chop_char l).2.bol = l.bol ∧
      (lexer_chop_char l).2 = l) := by
  refine ⟨?_, ?_, ?_⟩
  · intro hlt hnl
    rw [lexer_chop_char_eq, if_pos hlt, if_pos hnl]
    exact ⟨rfl, rfl, fun hr => Nat.mod_eq_of_lt hr, rfl⟩
  · intro hlt hnl
    rw [lexer_chop_char_eq, if_pos hlt, if_neg hnl]
    exact ⟨rfl, rfl, rfl⟩
  · intro hge
    rw [lexer_chop_char_ge l hge]
    exact ⟨rfl, rfl, rfl, rfl⟩

theorem C16_chop_char_bookkeeping_witness :
    (lexer_create "rules.lex" [10, 97] puncts).cur < (lexer_create "rules.lex" [10, 97] puncts).size ∧
      (lexer_create "rules.lex" [10, 97] puncts).byte 0 = 10 ∧
      (lexer_chop_char (lexer_create "rules.lex" [10, 97] puncts)).2.cur = 0 + 1 ∧
      (lexer_chop_char (lexer_create "rules.lex" [10, 97] puncts)).2.row
        = (0 + 1) % SIZE_MODULUS ∧
      (0 + 1 < SIZE_MODULUS →
        (lexer_chop_char (lexer_create "rules.lex" [10, 97] puncts)).2.row = 0 + 1) ∧
      (lexer_chop_char (lexer_create "rules.lex" [10, 97] puncts)).2.bol = 0 + 1 :=
  ⟨by decide, by decide,
    (C16_chop_char_bookkeeping (lexer_create "rules.lex" [10, 97] puncts)).1
      (by decide) (by decide)⟩

/-! ## The actual advance of `lexer_chop_chars` -/

theorem newline_run_of_newline (c : List Nat) (a : Nat) (h : a < c.length)
    (hb : c.getD a 0 = 10) : newline_run c a = newline_run c (a + 1) + 1 := by
  unfold newline_run
  rw [List.getD_eq_getElem c 0 h] at hb
  rw [List.drop_eq_getElem_cons h, List.takeWhile_cons, hb]
  simp

theorem newline_run_of_other (c : List Nat) (a : Nat) (h : a < c.length)
    (hb : c.getD a 0 ≠ 10) : newline_run c a = 0 := by
  unfold newline_run
  rw [List.getD_eq_getElem c 0 h] at hb
  rw [List.drop_eq_getElem_cons h, List.takeWhile_cons]
  simp [hb]

theorem lexer_chop_chars_cur (l : Lexer) (n : Nat) (h : l.cur ≤ l.size) :
    (lexer_chop_chars l n).cur =
      l.cur + min n (min (l.size - l.cur) (newline_run l.content l.cur + 1)) := by
  induction n generalizing l with
  | zero => simp [lexer_chop_chars]
  | succ n ih =>
    simp only [lexer_chop_chars]
    rw [lexer_chop_char_fst]
    rcases Nat.lt_or_ge l.cur l.size with hlt | hge
    · have hc := lexer_chop_char_cur_lt l hlt
      by_cases hb : l.byte l.cur = 10
      · rw [if_pos (by simp [hlt, hb])]
        have h1 : (lexer_chop_char l).2.cur ≤ (lexer_chop_char l).2.size := by
          rw [lexer_chop_char_size, hc]; exact hlt
        rw [ih _ h1, lexer_chop_char_size, lexer_chop_char_content, hc,
          newline_run_of_newline l.content l.cur hlt hb]
        omega
      · rw [if_neg (by simp [hb])]
        rw [hc, newline_run_of_other l.content l.cur hlt hb]
        omega
    · rw [if_neg (by simp; omega)]
      rw [lexer_chop_char_ge l hge]
      have hz : l.size - l.cur = 0 := by omega
      rw [hz]
      simp

/-- C20: for `cur <= size`, `lexer_chop_chars(l, n)` advances the cursor by
exactly `min(n, size - cur, k + 1)`, where `k` is the number of consecutive
newline bytes starting at the cursor. -/
theorem C20_chop_chars_actual_advance (l : Lexer) (n : Nat) (h : l.cur ≤ l.size) :
    (lexer_chop_chars l n).cur =
      l.cur + min n (min (l.size - l.cur) (newline_run l.content l.cur + 1)) :=
  lexer_chop_chars_cur l n h

theorem C20_chop_chars_actual_advance_witness :
    (lexer_create "rules.lex" [10, 10, 97, 98, 99] puncts).cur ≤
        (lexer_create "rules.lex" [10, 10, 97, 98, 99] puncts).size ∧
      newline_run [10, 10, 97, 98, 99] 0 = 2 ∧
      (lexer_chop_chars (lexer_create "rules.lex" [10, 10, 97, 98, 99] puncts) 4).cur =
        0 + min 4 (min (5 - 0) (2 + 1)) :=
  ⟨by decide, by decide,
    C20_chop_chars_actual_advance (lexer_create "rules.lex" [10, 10, 97, 98, 99] puncts) 4
      (by decide)⟩

/-! ## The bookkeeping of the whitespace skip -/

theorem newline_count_step (c : List Nat) (k : Nat) :
    newline_count c (k + 1) = newline_count c k + (if c.getD k 0 = 10 then 1 else 0) := by
  rcases Nat.lt_or_ge k c.length with hlt | hge
  · exact newline_count_succ c k hlt
  · have hd : c.getD k 0 = 0 := List.getD_eq_default c 0 hge
    unfold newline_count
    rw [List.take_of_length_le hge, List.take_of_length_le (Nat.le_succ_of_le hge), hd]
    simp

theorem newline_count_split (c : List Nat) (a j : Nat) (h : a ≤ j) :
    newline_count c j = newline_count c a + newlines_between c a j := by
  obtain ⟨d, rfl⟩ : ∃ d, j = a + d := ⟨j - a, by omega⟩
  unfold newline_count newlines_between
  rw [List.take_add, List.count_append, Nat.add_sub_cancel_left]

theorem newlines_between_self (c : List Nat) (a : Nat) : newlines_between c a a = 0 := by
  unfold newlines_between
  simp

theorem newlines_between_first (c : List Nat) (a j : Nat) (h : a < j) :
    newlines_between c a j =
      (if c.getD a 0 = 10 then 1 else 0) + newlines_between c (a + 1) j := by
  have h1 := newline_count_split c a j (Nat.le_of_lt h)
  have h2 := newline_count_split c (a + 1) j h
  have h3 := newline_count_step c a
  omega

theorem newlines_between_last (c : List Nat) (a k : Nat) (h : a ≤ k) :
    newlines_between c a (k + 1) =
      newlines_between c a k + (if c.getD k 0 = 10 then 1 else 0) := by
  have h1 := newline_count_split c a k h
  have h2 := newline_count_split c a (k + 1) (Nat.le_succ_of_le h)
  have h3 := newline_count_step c k
  omega

theorem line_start_of_no_newlines (c : List Nat) (j d : Nat)
    (h : newlines_between c j (j + d) = 0) : line_start c (j + d) = line_start c j := by
  induction d with
  | zero => rfl
  | succ d ih =>
    have h1 := newlines_between_last c j (j + d) (Nat.le_add_right j d)
    have h2 : newlines_between c j (j + d + 1) = 0 := h
    rw [h2] at h1
    by_cases hb : c.getD (j + d) 0 = 10
    · rw [if_pos hb] at h1
      omega
    · rw [if_neg hb] at h1
      show line_start c (j + d + 1) = line_start c j
      simp only [line_start, hb, if_false]
      exact ih (by omega)

theorem lexer_chop_char_newline (l : Lexer) (h : l.cur < l.size) (hb : l.byte l.cur = 10) :
    (lexer_chop_char l).2.row = (l.row + 1) % SIZE_MODULUS ∧
      (lexer_chop_char l).2.bol = l.cur + 1 := by
  rw [lexer_chop_char_eq, if_pos h, if_pos hb]
  exact ⟨rfl, rfl⟩

theorem lexer_chop_char_other (l : Lexer) (h : l.cur < l.size) (hb : l.byte l.cur ≠ 10) :
    (lexer_chop_char l).2.row = l.row ∧ (lexer_chop_char l).2.bol = l.bol := by
  rw [lexer_chop_char_eq, if_pos h, if_neg hb]
  exact ⟨rfl, rfl⟩

theorem SkipSpec_self (l : Lexer) (h : l.cur ≤ l.size) : SkipSpec l l := by
  unfold SkipSpec
  rw [newlines_between_self]
  exact ⟨Nat.le_refl _, h, fun i h1 h2 => by omega, rfl, rfl, fun h0 => absurd rfl h0⟩

/-- One whitespace byte consumed by `lexer_chop_char`, followed by a skip. -/
theorem SkipSpec_step (l l2 : Lexer) (hlt : l.cur < l.size)
    (hsp : isspace (l.byte l.cur) = true) (hs : SkipSpec (lexer_chop_char l).2 l2) :
    SkipSpec l l2 := by
  have hcur := lexer_chop_char_cur_lt l hlt
  have hcont := lexer_chop_char_content l
  have hsize := lexer_chop_char_size l
  unfold SkipSpec at hs ⊢
  obtain ⟨g1, g2, g3, g4, g5, g6⟩ := hs
  rw [hsize] at g2
  rw [hcont, hcur] at g4 g5 g6
  rw [hcur] at g1 g3
  have hbyte : ∀ i, (lexer_chop_char l).2.byte i = l.byte i := by
    intro i
    unfold Lexer.byte
    rw [hcont]
  have hfirst := newlines_between_first l.content l.cur l2.cur (by omega)
  by_cases hb : l.byte l.cur = 10
  · have hb2 : l.content.getD l.cur 0 = 10 := hb
    rw [if_pos hb2] at hfirst
    rw [(lexer_chop_char_newline l hlt hb).1] at g4
    rw [(lexer_chop_char_newline l hlt hb).2] at g5
    have hne : ¬ newlines_between l.content l.cur l2.cur = 0 := by omega
    rw [if_neg hne, if_neg hne]
    refine ⟨by omega, g2, ?_, ?_, ?_, ?_⟩
    · intro i hi1 hi2
      rcases Nat.eq_or_lt_of_le hi1 with he | hl
      · rw [← he]; exact hsp
      · rw [← hbyte i]; exact g3 i hl hi2
    · rw [hfirst, g4]
      by_cases h0 : newlines_between l.content (l.cur + 1) l2.cur = 0
      · rw [if_pos h0, h0]
      · rw [if_neg h0, Nat.mod_add_mod, Nat.add_assoc]
    · rw [g5]
      by_cases h0 : newlines_between l.content (l.cur + 1) l2.cur = 0
      · rw [if_pos h0]
        obtain ⟨d, hd⟩ : ∃ d, l2.cur = l.cur + 1 + d := ⟨_, (Nat.add_sub_cancel' g1).symm⟩
        rw [hd] at h0 ⊢
        rw [line_start_of_no_newlines l.content (l.cur + 1) d h0]
        simp only [line_start, hb2, if_true]
      · rw [if_neg h0]
    · intro _
      by_cases h0 : newlines_between l.content (l.cur + 1) l2.cur = 0
      · rw [if_pos h0] at g5
        omega
      · have := g6 h0
        omega
  · have hb2 : ¬ l.content.getD l.cur 0 = 10 := hb
    rw [if_neg hb2, Nat.zero_add] at hfirst
    rw [(lexer_chop_char_other l hlt hb).1] at g4
    rw [(lexer_chop_char_other l hlt hb).2] at g5
    rw [hfirst]
    refine ⟨by omega, g2, ?_, g4, g5, ?_⟩
    · intro i hi1 hi2
      rcases Nat.eq_or_lt_of_le hi1 with he | hl
      · rw [← he]; exact hsp
      · rw [← hbyte i]; exact g3 i hl hi2
    · intro hnb
      have := g6 hnb
      omega

/-- What the loop of `lexer_trim_left_ws` does to the lexer, for any bound on
the iterations. -/
theorem lexer_trim_left_ws_loop_spec (fuel : Nat) (l : Lexer) (h : l.cur ≤ l.size) :
    SkipSpec l (lexer_trim_left_ws_loop fuel l) := by
  induction fuel generalizing l with
  | zero => exact SkipSpec_self l h
  | succ n ih =>
    have e : lexer_trim_left_ws_loop (n + 1) l =
        if l.cur < l.size ∧ isspace (l.byte l.cur) = true then
          lexer_trim_left_ws_loop n (lexer_chop_char l).2
        else l := rfl
    rw [e]
    by_cases hc : l.cur < l.size ∧ isspace (l.byte l.cur) = true
    · rw [if_pos hc]
      apply SkipSpec_step l _ hc.1 hc.2
      apply ih
      rw [lexer_chop_char_size, lexer_chop_char_cur_lt l hc.1]
      exact hc.1
    · rw [if_neg hc]
      exact SkipSpec_self l h

theorem isspace_iff (b : Nat) :
    isspace b = true ↔ b = 32 ∨ b = 9 ∨ b = 10 ∨ b = 13 ∨ b = 11 ∨ b = 12 := by
  unfold isspace
  simp only [Bool.or_eq_true, Bool.and_eq_true, beq_iff_eq, decide_eq_true_eq]
  omega

/-- C15: for `cur <= size`, `lexer_trim_left_ws` (a total function) leaves the
buffer unchanged and the cursor at the least offset `j >= cur` such that
`j = size` or `content[j]` is not a whitespace byte (space, tab, newline,
carriage return, vertical tab, form feed); every byte in `[cur, j)` is a
whitespace byte; `row` grows by the number of newline bytes in `[cur, j)` (in
`size_t` arithmetic, and exactly when the sum fits); `bol` is unchanged when
there is no newline byte in the range, and otherwise becomes the offset just
after the last newline byte of the range. -/
theorem C15_trim_left_ws_skip (l : Lexer) (h : l.cur ≤ l.size) :
    (lexer_trim_left_ws l).content = l.content ∧
    l.cur ≤ (lexer_trim_left_ws l).cur ∧
    (lexer_trim_left_ws l).cur ≤ l.size ∧
    ((lexer_trim_left_ws l).cur = l.size ∨
      isspace (l.byte (lexer_trim_left_ws l).cur) = false) ∧
    (∀ i, l.cur ≤ i → i < (lexer_trim_left_ws l).cur → isspace (l.byte i) = true) ∧
    (∀ j, l.cur ≤ j → (j = l.size ∨ isspace (l.byte j) = false) →
      (lexer_trim_left_ws l).cur ≤ j) ∧
    (∀ b, isspace b = true ↔ b = 32 ∨ b = 9 ∨ b = 10 ∨ b = 13 ∨ b = 11 ∨ b = 12) ∧
    (l.row + newlines_between l.content l.cur (lexer_trim_left_ws l).cur < SIZE_MODULUS →
      (lexer_trim_left_ws l).row =
        l.row + newlines_between l.content l.cur (lexer_trim_left_ws l).cur) ∧
    (l.row < SIZE_MODULUS →
      (lexer_trim_left_ws l).row =
        (l.row + newlines_between l.content l.cur (lexer_trim_left_ws l).cur) % SIZE_MODULUS) ∧
    (newlines_between l.content l.cur (lexer_trim_left_ws l).cur = 0 →
      (lexer_trim_left_ws l).bol = l.bol) ∧
    (newlines_between l.content l.cur (lexer_trim_left_ws l).cur ≠ 0 →
      l.cur < (lexer_trim_left_ws l).bol ∧
      (lexer_trim_left_ws l).bol ≤ (lexer_trim_left_ws l).cur ∧
      l.byte ((lexer_trim_left_ws l).bol - 1) = 10 ∧
      ∀ i, (lexer_trim_left_ws l).bol ≤ i → i < (lexer_trim_left_ws l).cur →
        l.byte i ≠ 10) := by
  have hs : SkipSpec l (lexer_trim_left_ws l) := lexer_trim_left_ws_loop_spec _ l h
  unfold SkipSpec at hs
  obtain ⟨g1, g2, g3, g4, g5, g6⟩ := hs
  have hstop := lexer_trim_left_ws_stops l
  rw [lexer_trim_left_ws_size] at hstop
  have hbyte : (lexer_trim_left_ws l).byte (lexer_trim_left_ws l).cur =
      l.byte (lexer_trim_left_ws l).cur := by
    unfold Lexer.byte
    rw [lexer_trim_left_ws_content]
  rw [hbyte] at hstop
  have hend : (lexer_trim_left_ws l).cur = l.size ∨
      isspace (l.byte (lexer_trim_left_ws l).cur) = false := by
    rcases Nat.eq_or_lt_of_le g2 with he | hl
    · exact Or.inl he
    · right
      cases hv : isspace (l.byte (lexer_trim_left_ws l).cur) with
      | false => rfl
      | true => exact absurd ⟨hl, hv⟩ hstop
  refine ⟨lexer_trim_left_ws_content l, g1, g2, hend, g3, ?_, isspace_iff, ?_, ?_, ?_, ?_⟩
  · intro j hj1 hj2
    by_contra hlt
    have hjlt : j < (lexer_trim_left_ws l).cur := by omega
    have hw := g3 j hj1 hjlt
    rcases hj2 with he | hf
    · omega
    · rw [hw] at hf
      cases hf
  · intro hfit
    rw [g4]
    split_ifs with h0
    · rw [h0]; rfl
    · exact Nat.mod_eq_of_lt hfit
  · intro hrow
    rw [g4]
    split_ifs with h0
    · rw [h0, Nat.add_zero]
      exact (Nat.mod_eq_of_lt hrow).symm
    · rfl
  · intro h0
    rw [g5, if_pos h0]
  · intro h0
    have hb := g6 h0
    rw [if_neg h0] at g5
    have hle := line_start_le l.content (lexer_trim_left_ws l).cur
    refine ⟨hb, by rw [g5]; exact hle, ?_, ?_⟩
    · rcases line_start_after_newline l.content (lexer_trim_left_ws l).cur with hz | hn
      · rw [g5] at hb
        omega
      · rw [g5]
        exact hn
    · intro i hi1 hi2
      rw [g5] at hi1
      exact line_start_no_newline l.content _ i hi1 hi2

theorem C15_trim_left_ws_skip_witness :
    (lexer_create "rules.lex" [32, 10, 9, 97] puncts).cur ≤
        (lexer_create "rules.lex" [32, 10, 9, 97] puncts).size ∧
      (lexer_trim_left_ws (lexer_create "rules.lex" [32, 10, 9, 97] puncts)).cur = 3 ∧
      newlines_between [32, 10, 9, 97] 0 3 = 1 ∧
      (lexer_trim_left_ws (lexer_create "rules.lex" [32, 10, 9, 97] puncts)).row = 1 ∧
      (lexer_trim_left_ws (lexer_create "rules.lex" [32, 10, 9, 97] puncts)).bol = 2 ∧
      ((lexer_trim_left_ws (lexer_create "rules.lex" [32, 10, 9, 97] puncts)).cur = 4 ∨
        isspace ((lexer_create "rules.lex" [32, 10, 9, 97] puncts).byte
          (lexer_trim_left_ws (lexer_create "rules.lex" [32, 10, 9, 97] puncts)).cur) = false) :=
  ⟨by decide, by decide, by decide, by decide, by decide,
    (C15_trim_left_ws_skip (lexer_create "rules.lex" [32, 10, 9, 97] puncts)
      (by decide)).2.2.2.1⟩

/-! ## Progress of the caller loop -/

theorem lexer_trim_left_ws_cur_le (l : Lexer) : l.cur ≤ (lexer_trim_left_ws l).cur := by
  rcases Nat.le_total l.cur l.size with hle | hge
  · exact (lexer_trim_left_ws_loop_spec _ l hle).1
  · rw [lexer_trim_left_ws_ge l hge]

theorem lexer_get_token_table (l : Lexer) : (lexer_get_token l).2.2.puncts = l.puncts := by
  rcases lexer_get_token_cases l with ⟨_, he⟩ | ⟨_, k, _, _, _, he⟩ | ⟨_, _, he⟩
  · rw [he]; exact lexer_trim_left_ws_puncts l
  · rw [he]
    show (lexer_chop_chars _ _).puncts = _
    rw [lexer_chop_chars_puncts, lexer_trim_left_ws_puncts]
  · rw [he]
    show (lexer_chop_char _).2.puncts = _
    rw [lexer_chop_char_puncts, lexer_trim_left_ws_puncts]

theorem lexer_after_calls_table (l : Lexer) (k : Nat) :
    (lexer_after_calls l k).puncts = l.puncts := by
  induction k with
  | zero => rfl
  | succ k ih =>
    simp only [lexer_after_calls]
    rw [lexer_get_token_table, ih]

/-- With a byte left in the buffer, `lexer_chop_chars` with a positive count
consumes at least one byte. -/
theorem lexer_chop_chars_advances (l : Lexer) (n : Nat) (hlt : l.cur < l.size) (hn : 0 < n) :
    l.cur < (lexer_chop_chars l n).cur := by
  rw [lexer_chop_chars_cur l n (Nat.le_of_lt hlt)]
  omega

/-- When no literal of the table is empty, a call that does not return an End
token moves the cursor forward. -/
theorem lexer_get_token_progress (l : Lexer) (hne : ∀ p ∈ l.puncts, 0 < strlen p)
    (hk : (lexer_get_token l).2.1.kind ≠ Lexer_Kind.LEXER_END) :
    l.cur < (lexer_get_token l).2.2.cur := by
  have ht := lexer_trim_left_ws_cur_le l
  rcases lexer_get_token_cases l with ⟨_, he⟩ | ⟨hlt, k, hkl, _, _, he⟩ | ⟨hlt, _, he⟩
  · rw [he] at hk
    exact absurd rfl hk
  · rw [he]
    have hmem : l.puncts.getD k [] ∈ l.puncts := by
      rw [List.getD_eq_getElem _ _ hkl]
      exact List.getElem_mem _
    have h2 := lexer_chop_chars_advances (lexer_trim_left_ws l) _ hlt (hne _ hmem)
    exact Nat.lt_of_le_of_lt ht h2
  · rw [he]
    have h2 := lexer_chop_char_cur_lt (lexer_trim_left_ws l) hlt
    show l.cur < (lexer_chop_char (lexer_trim_left_ws l)).2.cur
    omega

/-- After `k` calls, either an earlier call has returned an End token or the
cursor is at least `k`. -/
theorem lexer_after_calls_end_or_advanced (l : Lexer) (hne : ∀ p ∈ l.puncts, 0 < strlen p)
    (k : Nat) :
    (∃ i, i < k ∧ (lexer_nth_call l i).2.1.kind = Lexer_Kind.LEXER_END) ∨
      k ≤ (lexer_after_calls l k).cur := by
  induction k with
  | zero => right; exact Nat.zero_le _
  | succ k ih =>
    rcases ih with ⟨i, hi, he⟩ | hle
    · left
      exact ⟨i, Nat.lt_succ_of_lt hi, he⟩
    · by_cases hend : (lexer_nth_call l k).2.1.kind = Lexer_Kind.LEXER_END
      · left
        exact ⟨k, Nat.lt_succ_self k, hend⟩
      · right
        have hp := lexer_get_token_progress (lexer_after_calls l k)
          (by rw [lexer_after_calls_table]; exact hne) hend
        show k + 1 ≤ (lexer_get_token (lexer_after_calls l k)).2.2.cur
        omega

/-- C17: when no literal of the table is empty, (1) a call of `lexer_get_token`
that returns a token other than End leaves the cursor strictly after the old
cursor, and a cursor that is at most the buffer size stays so; (2) on a fresh
lexer over a buffer of size `n` the cursor never exceeds `n`, and one of the
calls number 0 to `n` (the first `n + 1` calls) returns an End token. -/
theorem C17_progress_and_termination (table : List (List Nat))
    (hne : ∀ p ∈ table, 0 < strlen p) :
    (∀ l : Lexer, l.puncts = table →
      ((lexer_get_token l).2.1.kind ≠ Lexer_Kind.LEXER_END →
        l.cur < (lexer_get_token l).2.2.cur) ∧
      (l.cur ≤ l.size → (lexer_get_token l).2.2.cur ≤ l.size)) ∧
    (∀ (file : String) (content : List Nat),
      (∀ k, (lexer_after_calls (lexer_create file content table) k).cur ≤ content.length) ∧
      ∃ k, k ≤ content.length ∧
        (lexer_nth_call (lexer_create file content table) k).2.1.kind
          = Lexer_Kind.LEXER_END) := by
  constructor
  · intro l hl
    exact ⟨lexer_get_token_progress l (by rw [hl]; exact hne), lexer_get_token_le_size l⟩
  · intro file content
    have hbound : ∀ k, (lexer_after_calls (lexer_create file content table) k).cur
        ≤ content.length := fun k =>
      lexer_after_calls_le_size (lexer_create file content table) k (Nat.zero_le _)
    refine ⟨hbound, ?_⟩
    rcases lexer_after_calls_end_or_advanced (lexer_create file content table) hne
        (content.length + 1) with ⟨i, hi, he⟩ | hle
    · exact ⟨i, Nat.le_of_lt_succ hi, he⟩
    · have := hbound (content.length + 1)
      omega

theorem C17_progress_and_termination_witness :
    (∀ p ∈ puncts, 0 < strlen p) ∧
      (lexer_get_token (lexer_create "rules.lex" [97, 44] puncts)).2.1.kind
        ≠ Lexer_Kind.LEXER_END ∧
      (lexer_create "rules.lex" [97, 44] puncts).cur <
        (lexer_get_token (lexer_create "rules.lex" [97, 44] puncts)).2.2.cur ∧
      (lexer_nth_call (lexer_create "rules.lex" [97, 44] puncts) 2).2.1.kind
        = Lexer_Kind.LEXER_END :=
  ⟨by decide, by decide,
    ((C17_progress_and_termination puncts (by decide)).1
      (lexer_create "rules.lex" [97, 44] puncts) rfl).1 (by decide),
    by decide⟩

/-! ## Tables with an empty literal, tables of one-byte literals -/

/-- A second whitespace skip right after the first does nothing. -/
theorem lexer_trim_left_ws_idem (l : Lexer) :
    lexer_trim_left_ws (lexer_trim_left_ws l) = lexer_trim_left_ws l := by
  have hstop := lexer_trim_left_ws_stops l
  generalize lexer_trim_left_ws l = l1 at hstop
  unfold lexer_trim_left_ws
  cases l1.size - l1.cur with
  | zero => rfl
  | succ n =>
    simp only [lexer_trim_left_ws_loop]
    rw [if_neg hstop]

/-- The result of `lexer_get_token` when entry `i` is the first entry of the
table that `lexer_starts_with` accepts at the cursor left by the whitespace
skip. -/
theorem lexer_get_token_first_match (l : Lexer) (i : Nat) (hi : i < l.puncts.length)
    (hm : lexer_starts_with (lexer_trim_left_ws l) (l.puncts.getD i [])
      (strlen (l.puncts.getD i [])) = true)
    (hearlier : ∀ j, j < i → lexer_starts_with (lexer_trim_left_ws l) (l.puncts.getD j [])
      (strlen (l.puncts.getD j [])) = false)
    (hlt : (lexer_trim_left_ws l).cur < (lexer_trim_left_ws l).size) :
    lexer_get_token l =
      (true,
       { begin := (lexer_trim_left_ws l).cur,
         end_ := (lexer_trim_left_ws l).cur + strlen (l.puncts.getD i []),
         loc := lexer_loc (lexer_trim_left_ws l), kind := Lexer_Kind.LEXER_PUNCT,
         punct_index := i, kw_index := 0 },
       lexer_chop_chars (lexer_trim_left_ws l) (strlen (l.puncts.getD i []))) := by
  rcases lexer_get_token_cases l with ⟨hge, _⟩ | ⟨_, k, hk, hmk, hbefore, he⟩ | ⟨_, hall, _⟩
  · omega
  · have hki : k = i := by
      rcases Nat.lt_trichotomy k i with h1 | h1 | h1
      · have hf := hearlier k h1
        rw [hmk] at hf
        cases hf
      · exact h1
      · have hf := hbefore i h1
        rw [hm] at hf
        cases hf
    rw [hki] at he
    exact he
  · have hmem : l.puncts.getD i [] ∈ l.puncts := by
      rw [List.getD_eq_getElem _ _ hi]
      exact List.getElem_mem _
    have hf := hall _ hmem
    rw [hm] at hf
    cases hf

/-- C18: if the literal at index `i` of the table is empty, no earlier entry is
accepted at the cursor left by the whitespace skip, and that cursor is before
the end of the buffer, then every call of `lexer_get_token` (the first and every
later one) returns true with the same zero-length Punct token of index `i` at
that cursor and leaves the cursor there; no call returns an End token. -/
theorem C18_empty_literal_stalls (l : Lexer) (i : Nat) (hi : i < l.puncts.length)
    (hempty : strlen (l.puncts.getD i []) = 0)
    (hearlier : ∀ j, j < i → lexer_starts_with (lexer_trim_left_ws l) (l.puncts.getD j [])
      (strlen (l.puncts.getD j [])) = false)
    (hlt : (lexer_trim_left_ws l).cur < (lexer_trim_left_ws l).size) (k : Nat) :
    lexer_nth_call l k =
        (true,
         { begin := (lexer_trim_left_ws l).cur, end_ := (lexer_trim_left_ws l).cur,
           loc := lexer_loc (lexer_trim_left_ws l), kind := Lexer_Kind.LEXER_PUNCT,
           punct_index := i, kw_index := 0 },
         lexer_trim_left_ws l) ∧
      (lexer_nth_call l k).2.1.kind ≠ Lexer_Kind.LEXER_END ∧
      (lexer_nth_call l k).2.2.cur = (lexer_trim_left_ws l).cur := by
  have hcall : ∀ l0 : Lexer, l0.puncts = l.puncts →
      lexer_trim_left_ws l0 = lexer_trim_left_ws l →
      lexer_get_token l0 =
        (true,
         { begin := (lexer_trim_left_ws l).cur, end_ := (lexer_trim_left_ws l).cur,
           loc := lexer_loc (lexer_trim_left_ws l), kind := Lexer_Kind.LEXER_PUNCT,
           punct_index := i, kw_index := 0 },
         lexer_trim_left_ws l) := by
    intro l0 hp ht
    have hm : lexer_starts_with (lexer_trim_left_ws l0) (l0.puncts.getD i [])
        (strlen (l0.puncts.getD i [])) = true := by
      rw [hp, hempty, lexer_starts_with_iff]
      intro j hj
      omega
    have h1 := lexer_get_token_first_match l0 i (by rw [hp]; exact hi) hm
      (by rw [hp, ht]; exact hearlier) (by rw [ht]; exact hlt)
    rw [hp, ht, hempty] at h1
    exact h1
  have hstate : ∀ n, lexer_after_calls l n = l ∨
      lexer_after_calls l n = lexer_trim_left_ws l := by
    intro n
    induction n with
    | zero => left; rfl
    | succ n ih =>
      right
      show (lexer_get_token (lexer_after_calls l n)).2.2 = lexer_trim_left_ws l
      rcases ih with h0 | h0
      · rw [h0, hcall l rfl rfl]
      · rw [h0, hcall (lexer_trim_left_ws l) (lexer_trim_left_ws_puncts l)
          (lexer_trim_left_ws_idem l)]
  have hres : lexer_nth_call l k =
      (true,
       { begin := (lexer_trim_left_ws l).cur, end_ := (lexer_trim_left_ws l).cur,
         loc := lexer_loc (lexer_trim_left_ws l), kind := Lexer_Kind.LEXER_PUNCT,
         punct_index := i, kw_index := 0 },
       lexer_trim_left_ws l) := by
    unfold lexer_nth_call
    rcases hstate k with h0 | h0
    · rw [h0, hcall l rfl rfl]
    · rw [h0, hcall (lexer_trim_left_ws l) (lexer_trim_left_ws_puncts l)
        (lexer_trim_left_ws_idem l)]
  rw [hres]
  refine ⟨rfl, ?_, rfl⟩
  intro hk
  have hk2 : Lexer_Kind.LEXER_PUNCT = Lexer_Kind.LEXER_END := hk
  cases hk2

theorem C18_empty_literal_stalls_witness :
    0 < (lexer_create "rules.lex" [32, 97] [[], [44]]).puncts.length ∧
      strlen ((lexer_create "rules.lex" [32, 97] [[], [44]]).puncts.getD 0 []) = 0 ∧
      (lexer_trim_left_ws (lexer_create "rules.lex" [32, 97] [[], [44]])).cur = 1 ∧
      (lexer_nth_call (lexer_create "rules.lex" [32, 97] [[], [44]]) 5).2.1.kind
        ≠ Lexer_Kind.LEXER_END ∧
      (lexer_nth_call (lexer_create "rules.lex" [32, 97] [[], [44]]) 5).2.2.cur =
        (lexer_trim_left_ws (lexer_create "rules.lex" [32, 97] [[], [44]])).cur :=
  ⟨by decide, by decide, by decide,
    (C18_empty_literal_stalls (lexer_create "rules.lex" [32, 97] [[], [44]]) 0 (by decide)
      (by decide) (fun j hj => absurd hj (Nat.not_lt_zero j)) (by decide) 5).2⟩

/-- C19: when every literal of the table has length 1, (1) in every state with
`cur <= size` the token returned by `lexer_get_token` has
`begin <= end <= size`, the cursor after the call is the token's end, and a
Punct token has a valid index, is one byte long and that byte of the buffer is
the byte of the literal at `punct_index`; (2) every state reached from a fresh
lexer by calls of `lexer_get_token` has that table and `cur <= size`. -/
theorem C19_single_byte_tables (table : List (List Nat))
    (h1 : ∀ p ∈ table, strlen p = 1) :
    (∀ l : Lexer, l.puncts = table → l.cur ≤ l.size →
      (lexer_get_token l).2.1.begin ≤ (lexer_get_token l).2.1.end_ ∧
      (lexer_get_token l).2.1.end_ ≤ l.size ∧
      (lexer_get_token l).2.2.cur = (lexer_get_token l).2.1.end_ ∧
      ((lexer_get_token l).2.1.kind = Lexer_Kind.LEXER_PUNCT →
        (lexer_get_token l).2.1.punct_index < table.length ∧
        (lexer_get_token l).2.1.end_ = (lexer_get_token l).2.1.begin + 1 ∧
        l.byte (lexer_get_token l).2.1.begin =
          (table.getD (lexer_get_token l).2.1.punct_index []).getD 0 0)) ∧
    (∀ (file : String) (content : List Nat) (k : Nat),
      (lexer_after_calls (lexer_create file content table) k).puncts = table ∧
      (lexer_after_calls (lexer_create file content table) k).cur ≤
        (lexer_after_calls (lexer_create file content table) k).size) := by
  constructor
  · intro l hl hle
    have ht := lexer_trim_left_ws_le_size l hle
    have hsz := lexer_trim_left_ws_size l
    rcases lexer_get_token_cases l with ⟨_, he⟩ | ⟨hlt, k, hk, hm, _, he⟩ | ⟨hlt, _, he⟩
    · rw [he]
      refine ⟨Nat.le_refl _, ht, rfl, ?_⟩
      intro hkind
      have hk2 : Lexer_Kind.LEXER_END = Lexer_Kind.LEXER_PUNCT := hkind
      cases hk2
    · have hmem : l.puncts.getD k [] ∈ l.puncts := by
        rw [List.getD_eq_getElem _ _ hk]
        exact List.getElem_mem _
      have hlen : strlen (l.puncts.getD k []) = 1 := h1 _ (by rw [← hl]; exact hmem)
      rw [hlen] at he hm
      rw [he]
      have hcur : (lexer_chop_chars (lexer_trim_left_ws l) 1).cur
          = (lexer_trim_left_ws l).cur + 1 := by
        rw [lexer_chop_chars_one, lexer_chop_char_cur_lt _ hlt]
      refine ⟨Nat.le_succ _, by rw [hsz] at hlt; exact hlt, hcur, ?_⟩
      intro _
      refine ⟨by rw [← hl]; exact hk, rfl, ?_⟩
      have hb := (lexer_starts_with_iff _ _ _).mp hm 0 (by omega) (by omega)
      rw [← hl]
      show l.content.getD (lexer_trim_left_ws l).cur 0 = _
      rw [← lexer_trim_left_ws_content l]
      exact hb
    · rw [he]
      refine ⟨Nat.le_succ _, by rw [hsz] at hlt; exact hlt,
        lexer_chop_char_cur_lt _ hlt, ?_⟩
      intro hkind
      have hk2 : Lexer_Kind.LEXER_INVALID = Lexer_Kind.LEXER_PUNCT := hkind
      cases hk2
  · intro file content k
    refine ⟨lexer_after_calls_table _ k, ?_⟩
    rw [lexer_after_calls_size]
    exact lexer_after_calls_le_size _ k (Nat.zero_le _)

theorem C19_single_byte_tables_witness :
    (∀ p ∈ puncts, strlen p = 1) ∧
      (lexer_get_token (lexer_create "rules.lex" [32, 59, 97] puncts)).2.1.kind
        = Lexer_Kind.LEXER_PUNCT ∧
      (lexer_get_token (lexer_create "rules.lex" [32, 59, 97] puncts)).2.1.begin = 1 ∧
      (lexer_get_token (lexer_create "rules.lex" [32, 59, 97] puncts)).2.1.end_ = 2 ∧
      (lexer_get_token (lexer_create "rules.lex" [32, 59, 97] puncts)).2.2.cur =
        (lexer_get_token (lexer_create "rules.lex" [32, 59, 97] puncts)).2.1.end_ :=
  ⟨by decide, by decide, by decide, by decide,
    ((C19_single_byte_tables puncts (by decide)).1
      (lexer_create "rules.lex" [32, 59, 97] puncts) rfl (by decide)).2.2.1⟩

end RulesLexer
